import Mathlib

/-!
# The C auto-indenter of gnome-builder (`src/editor/gb-source-auto-indenter-c.c`)

A shallow embedding of the indentation engine and the proofs of its contract,
followed by the navigation list (`src/navigation/gb-navigation-list.c`) and the
document manager (`src/documents/gb-document-manager.c`), each introduced where
its definitions start.

## The text buffer

A `GtkTextBuffer` is modelled by the list of its characters, and a
`GtkTextIter` by a character offset between `0` and the length of the list
(the length itself is the end iterator).  Lines are separated by the newline
character, the only paragraph separator this model knows.  The GTK iterator
primitives used by the source are modelled after their documented behaviour:

* `gtk_text_iter_get_char` reads the character at the offset, and `0` at the
  end iterator;
* `gtk_text_iter_backward_char` fails, without moving, at offset `0`;
* `gtk_text_iter_forward_char` moves one character forward and reports
  whether the new position can be dereferenced (it reports failure when it
  arrives at, or already is, the end iterator);
* `gtk_text_iter_get_line` counts the line breaks before the offset;
* `gtk_text_buffer_get_iter_at_line` gives the first offset of a line, and
  the end iterator when there is no such line.

## Loops

The backward scan is a recursion on the offset.  The two forward loops take a
step budget and answer `Fault.out_of_fuel` when it runs out; the budget they
are started with is the buffer length plus one, and every theorem that gives
a result for them shows that the budget is never used up.

## Integers

The nesting counter of the backward scan is a `guint` and wraps modulo
`2 ^ 32`; GTK counts the characters of a buffer in a `gint`, and the theorems
about the scan take a buffer whose length fits one.  The `scope-indent`
property travels through a `GValue`, modelled by its type and its 32-bit data
word; the accessors of GLib check the type of the value they are given.

## What a call leaves behind

A second copy of the engine, the definitions whose names end in `_st`, passes
the text of the buffer through every call as state; it is shown to compute what
the first one computes, and it is the one the theorems about the state after a
call are stated on.
-/

namespace GnomeBuilder

/-- Ways in which a run of the engine stops without a result. -/
inductive Fault where
  | assert_not_reached
  | out_of_fuel
deriving DecidableEq, Repr

/-- Character read by `gtk_text_iter_get_char`: `0` at the end iterator. -/
def gtk_text_iter_get_char (buf : List Char) (iter : Nat) : Char :=
  buf.getD iter (Char.ofNat 0)

/-- Result `(moved, iter)` of `gtk_text_iter_backward_char`. -/
def gtk_text_iter_backward_char (iter : Nat) : Bool × Nat :=
  if iter = 0 then (false, 0) else (true, iter - 1)

/-- Result `(moved and dereferenceable, iter)` of `gtk_text_iter_forward_char`. -/
def gtk_text_iter_forward_char (buf : List Char) (iter : Nat) : Bool × Nat :=
  if iter < buf.length then (decide (iter + 1 < buf.length), iter + 1) else (false, iter)

/-- Line number of an offset (`gtk_text_iter_get_line`). -/
def gtk_text_iter_get_line (buf : List Char) (iter : Nat) : Nat :=
  (buf.take iter).count '\n'

/-- Offset of the first character of a line (`gtk_text_buffer_get_iter_at_line`);
the end iterator when the buffer has fewer lines. -/
def gtk_text_buffer_get_iter_at_line : List Char → Nat → Nat
  | _, 0 => 0
  | [], _ + 1 => 0
  | c :: cs, l + 1 =>
    1 + (if c = '\n' then gtk_text_buffer_get_iter_at_line cs l
         else gtk_text_buffer_get_iter_at_line cs (l + 1))

/-- Column of an offset within its line (`gtk_text_iter_get_line_offset`). -/
def gtk_text_iter_get_line_offset (buf : List Char) (iter : Nat) : Nat :=
  iter - gtk_text_buffer_get_iter_at_line buf (gtk_text_iter_get_line buf iter)

/-- The sum `offset + priv->scope_indent` of a `guint` and a `gint`, computed
in unsigned 32-bit arithmetic. -/
def guint_add_gint (offset : Nat) (scope_indent : Int) : Nat :=
  (((offset : Int) + scope_indent) % 4294967296).toNat

/-- What the `switch` of `build_indent` appends for a character: the character
itself for a tab or a space, a space for anything else. -/
def indent_char (ch : Char) : Char :=
  if ch = '\t' ∨ ch = ' ' then ch else ' '

/-- The `do ... while` loop of `build_indent`, `iter` walking forward from the
start of the line while it stays at or before `matching_line`. -/
def build_indent_copy (buf : List Char) (matching_line : Nat) :
    Nat → Nat → List Char → Except Fault (List Char)
  | 0, _, _ => .error .out_of_fuel
  | fuel + 1, iter, str =>
    let ch := gtk_text_iter_get_char buf iter
    let str := str ++ [indent_char ch]
    let (moved, iter) := gtk_text_iter_forward_char buf iter
    if moved && decide (iter ≤ matching_line) then
      build_indent_copy buf matching_line fuel iter str
    else
      .ok str

/-- The loop `while (str->len < line_offset) g_string_append_c (str, ' ')`,
as a recursion on the number of characters still missing. -/
def build_indent_pad : Nat → List Char → List Char
  | 0, str => str
  | missing + 1, str => build_indent_pad missing (str ++ [' '])

/-- `build_indent`: the string `str` extended by the indentation of the line of
`matching_line`, padded to `line_offset` characters. -/
def build_indent (line_offset : Nat) (buf : List Char) (matching_line : Nat)
    (str : List Char) : Except Fault (List Char) := do
  let iter := gtk_text_buffer_get_iter_at_line buf (gtk_text_iter_get_line buf matching_line)
  let str ← build_indent_copy buf matching_line (buf.length + 1) iter str
  return build_indent_pad (line_offset - str.length) str

/-- The `while` loop of `backward_find_matching_char`; `count` is a `guint`.
The result is `(found, iter)`. -/
def backward_find_matching_loop (buf : List Char) (mtch ch : Char) : Nat → Nat → Bool × Nat
  | 0, _ => (false, 0)
  | iter + 1, count =>
    let cur := gtk_text_iter_get_char buf iter
    if cur = mtch then
      let count := (count + 4294967295) % 4294967296
      if count = 0 then (true, iter)
      else backward_find_matching_loop buf mtch ch iter count
    else if cur = ch then
      backward_find_matching_loop buf mtch ch iter ((count + 1) % 4294967296)
    else
      backward_find_matching_loop buf mtch ch iter count

/-- `backward_find_matching_char`: the result is `(found, iter)`, and the
`default` case of its `switch` is `g_assert_not_reached ()`. -/
def backward_find_matching_char (buf : List Char) (iter : Nat) (ch : Char) :
    Except Fault (Bool × Nat) :=
  if ch = ')' then .ok (backward_find_matching_loop buf '(' ch iter 1)
  else if ch = '}' then .ok (backward_find_matching_loop buf '{' ch iter 1)
  else if ch = '[' then .ok (backward_find_matching_loop buf ']' ch iter 1)
  else .error .assert_not_reached

/-- The `while` loop of `line_is_space`, `begin` walking forward to `iter`. -/
def line_is_space_loop (buf : List Char) (iter : Nat) : Nat → Nat → Except Fault Bool
  | 0, _ => .error .out_of_fuel
  | fuel + 1, begin =>
    if iter = begin then .ok true
    else
      let (moved, begin) := gtk_text_iter_forward_char buf begin
      if !moved then .ok true
      else
        let ch := gtk_text_iter_get_char buf begin
        if ch = '\t' ∨ ch = ' ' then line_is_space_loop buf iter fuel begin
        else .ok false

/-- `line_is_space`. -/
def line_is_space (buf : List Char) (iter : Nat) : Except Fault Bool :=
  line_is_space_loop buf iter (buf.length + 1)
    (gtk_text_buffer_get_iter_at_line buf (gtk_text_iter_get_line buf iter))

/-- `backward_find_stmt_expr`. -/
def backward_find_stmt_expr (_iter : Nat) : Bool := false

/-- `gb_source_auto_indenter_c_query`, for an engine whose `priv->scope_indent`
is `scope_indent`.  The result is the returned string together with the value
the caller's iterator has when the function returns. -/
def gb_source_auto_indenter_c_query (scope_indent : Int) (buf : List Char) (iter : Nat) :
    Except Fault (List Char × Nat) := do
  let cur := iter
  let str : List Char := []
  let (moved, iter) := gtk_text_iter_backward_char iter
  if !moved then
    return (str, cur)
  let ch := gtk_text_iter_get_char buf iter
  if ch = '{' then
    if (← line_is_space buf iter) then
      let offset := gtk_text_iter_get_line_offset buf iter
      let str ← build_indent (guint_add_gint offset scope_indent) buf iter str
      return (str, cur)
  let mut iter := iter
  if ch = ')' ∨ ch = ']' ∨ ch = '}' then
    let (found, it) ← backward_find_matching_char buf iter ch
    iter := it
    if !found then
      return (str, cur)
  if ch = ',' then
    let (found, it) ← backward_find_matching_char buf iter ')'
    iter := it
    if !found then
      return (str, cur)
    let str ← build_indent (gtk_text_iter_get_line_offset buf iter) buf iter str
    return (str, cur)
  if ch = ';' then
    if !backward_find_stmt_expr iter then
      iter := cur
      let str ← build_indent 0 buf iter str
      return (str, cur)
    else
      let offset := gtk_text_iter_get_line_offset buf iter
      let str ← build_indent offset buf iter str
      return (str, cur)
  return (str, cur)

/-! ## The same engine with the buffer as state

The functions above read the buffer they are given.  To state what a call
leaves behind, the functions below pass the text of the buffer along as state:
every GTK call takes the text and hands back the text it leaves, and so does
every function of the engine.  The GTK calls the engine makes are the iterator
queries and moves modelled above, which leave the text as it is. -/

/-- `gtk_text_iter_get_char`, with the text it leaves. -/
def gtk_text_iter_get_char_st (buf : List Char) (iter : Nat) : Char × List Char :=
  (gtk_text_iter_get_char buf iter, buf)

/-- `gtk_text_iter_backward_char`, with the text it leaves. -/
def gtk_text_iter_backward_char_st (buf : List Char) (iter : Nat) : (Bool × Nat) × List Char :=
  (gtk_text_iter_backward_char iter, buf)

/-- `gtk_text_iter_forward_char`, with the text it leaves. -/
def gtk_text_iter_forward_char_st (buf : List Char) (iter : Nat) : (Bool × Nat) × List Char :=
  (gtk_text_iter_forward_char buf iter, buf)

/-- `gtk_text_iter_get_line`, with the text it leaves. -/
def gtk_text_iter_get_line_st (buf : List Char) (iter : Nat) : Nat × List Char :=
  (gtk_text_iter_get_line buf iter, buf)

/-- `gtk_text_buffer_get_iter_at_line`, with the text it leaves. -/
def gtk_text_buffer_get_iter_at_line_st (buf : List Char) (line : Nat) : Nat × List Char :=
  (gtk_text_buffer_get_iter_at_line buf line, buf)

/-- `gtk_text_iter_get_line_offset`, with the text it leaves. -/
def gtk_text_iter_get_line_offset_st (buf : List Char) (iter : Nat) : Nat × List Char :=
  (gtk_text_iter_get_line_offset buf iter, buf)

/-- The `do ... while` loop of `build_indent`, passing the text along. -/
def build_indent_copy_st (matching_line : Nat) :
    Nat → List Char → Nat → List Char → Except Fault (List Char × List Char)
  | 0, _, _, _ => .error .out_of_fuel
  | fuel + 1, buf, iter, str =>
    let (ch, buf) := gtk_text_iter_get_char_st buf iter
    let str := str ++ [indent_char ch]
    let ((moved, iter), buf) := gtk_text_iter_forward_char_st buf iter
    if moved && decide (iter ≤ matching_line) then
      build_indent_copy_st matching_line fuel buf iter str
    else
      .ok (str, buf)

/-- `build_indent`, passing the text along: the result is the string and the
text left. -/
def build_indent_st (line_offset : Nat) (buf : List Char) (matching_line : Nat)
    (str : List Char) : Except Fault (List Char × List Char) := do
  let (line, buf) := gtk_text_iter_get_line_st buf matching_line
  let (iter, buf) := gtk_text_buffer_get_iter_at_line_st buf line
  let (str, buf) ← build_indent_copy_st matching_line (buf.length + 1) buf iter str
  return (build_indent_pad (line_offset - str.length) str, buf)

/-- The `while` loop of `backward_find_matching_char`, passing the text along:
the result is `(found, iter)` and the text left. -/
def backward_find_matching_loop_st (mtch ch : Char) :
    Nat → List Char → Nat → (Bool × Nat) × List Char
  | 0, buf, _ => ((false, 0), buf)
  | iter + 1, buf, count =>
    let (cur, buf) := gtk_text_iter_get_char_st buf iter
    if cur = mtch then
      let count := (count + 4294967295) % 4294967296
      if count = 0 then ((true, iter), buf)
      else backward_find_matching_loop_st mtch ch iter buf count
    else if cur = ch then
      backward_find_matching_loop_st mtch ch iter buf ((count + 1) % 4294967296)
    else
      backward_find_matching_loop_st mtch ch iter buf count

/-- `backward_find_matching_char`, passing the text along. -/
def backward_find_matching_char_st (buf : List Char) (iter : Nat) (ch : Char) :
    Except Fault ((Bool × Nat) × List Char) :=
  if ch = ')' then .ok (backward_find_matching_loop_st '(' ch iter buf 1)
  else if ch = '}' then .ok (backward_find_matching_loop_st '{' ch iter buf 1)
  else if ch = '[' then .ok (backward_find_matching_loop_st ']' ch iter buf 1)
  else .error .assert_not_reached

/-- The `while` loop of `line_is_space`, passing the text along. -/
def line_is_space_loop_st (iter : Nat) :
    Nat → List Char → Nat → Except Fault (Bool × List Char)
  | 0, _, _ => .error .out_of_fuel
  | fuel + 1, buf, begin =>
    if iter = begin then .ok (true, buf)
    else
      let ((moved, begin), buf) := gtk_text_iter_forward_char_st buf begin
      if !moved then .ok (true, buf)
      else
        let (ch, buf) := gtk_text_iter_get_char_st buf begin
        if ch = '\t' ∨ ch = ' ' then line_is_space_loop_st iter fuel buf begin
        else .ok (false, buf)

/-- `line_is_space`, passing the text along. -/
def line_is_space_st (buf : List Char) (iter : Nat) : Except Fault (Bool × List Char) :=
  let (line, buf) := gtk_text_iter_get_line_st buf iter
  let (begin, buf) := gtk_text_buffer_get_iter_at_line_st buf line
  line_is_space_loop_st iter (buf.length + 1) buf begin

/-- `gb_source_auto_indenter_c_query`, passing the text along: the result is the
returned string, the text the buffer holds and the value the caller's iterator
has when the function returns. -/
def gb_source_auto_indenter_c_query_st (scope_indent : Int) (buf : List Char) (iter : Nat) :
    Except Fault (List Char × List Char × Nat) := do
  let cur := iter
  let str : List Char := []
  let mut buf := buf
  let ((moved, iter), buf1) := gtk_text_iter_backward_char_st buf iter
  buf := buf1
  if !moved then
    return (str, buf, cur)
  let (ch, buf2) := gtk_text_iter_get_char_st buf iter
  buf := buf2
  if ch = '{' then
    let (space, buf3) ← line_is_space_st buf iter
    buf := buf3
    if space then
      let (offset, buf4) := gtk_text_iter_get_line_offset_st buf iter
      let (str, buf5) ← build_indent_st (guint_add_gint offset scope_indent) buf4 iter str
      return (str, buf5, cur)
  let mut iter := iter
  if ch = ')' ∨ ch = ']' ∨ ch = '}' then
    let ((found, it), buf3) ← backward_find_matching_char_st buf iter ch
    buf := buf3
    iter := it
    if !found then
      return (str, buf, cur)
  if ch = ',' then
    let ((found, it), buf3) ← backward_find_matching_char_st buf iter ')'
    buf := buf3
    iter := it
    if !found then
      return (str, buf, cur)
    let (offset, buf4) := gtk_text_iter_get_line_offset_st buf iter
    let (str, buf5) ← build_indent_st offset buf4 iter str
    return (str, buf5, cur)
  if ch = ';' then
    if !backward_find_stmt_expr iter then
      iter := cur
      let (str, buf3) ← build_indent_st 0 buf iter str
      return (str, buf3, cur)
    else
      let (offset, buf3) := gtk_text_iter_get_line_offset_st buf iter
      let (str, buf4) ← build_indent_st offset buf3 iter str
      return (str, buf4, cur)
  return (str, buf, cur)

/-! ## The `scope-indent` property -/

/-- `struct _GbSourceAutoIndenterCPrivate`: two `gint` fields. -/
structure GbSourceAutoIndenterCPrivate where
  scope_indent : Int
  condition_indent : Int
deriving DecidableEq, Repr

/-- The property identifier `PROP_SCOPE_INDENT` of the `enum`. -/
def PROP_SCOPE_INDENT : Nat := 1

/-- The types of the `GValue`s met here. -/
inductive GType where
  | G_TYPE_INT
  | G_TYPE_UINT
deriving DecidableEq, Repr

/-- A `GValue` holding a 32-bit integer: its type, and its data word as an
unsigned number below `2 ^ 32`; `v_int` and `v_uint` are two views of that
word. -/
structure GValue where
  g_type : GType
  data : Nat
deriving DecidableEq, Repr

/-- `g_value_init`: a zeroed value of the given type. -/
def g_value_init (g_type : GType) : GValue :=
  { g_type := g_type, data := 0 }

/-- The type of the values of the `scope-indent` property: it is installed
with `g_param_spec_int`, so GObject hands `set_property` and `get_property` a
`GValue` of type `G_TYPE_INT`. -/
def scope_indent_value_type : GType := .G_TYPE_INT

/-- Conversion of a `guint` to a `gint`: the two's complement reading. -/
def gint_of_guint (u : Nat) : Int :=
  if u % 4294967296 < 2147483648 then ((u % 4294967296 : Nat) : Int)
  else ((u % 4294967296 : Nat) : Int) - 4294967296

/-- Conversion of a `gint` to a `guint`: reduction modulo `2 ^ 32`. -/
def guint_of_gint (i : Int) : Nat :=
  (i % 4294967296).toNat

/-- `g_value_set_int`: stores a `gint` in the data word of a value of type
`G_TYPE_INT`; on a value of another type the check `G_VALUE_HOLDS_INT` fails
and the function returns without storing. -/
def g_value_set_int (value : GValue) (v_int : Int) : GValue :=
  if value.g_type = .G_TYPE_INT then { value with data := guint_of_gint v_int }
  else value

/-- `g_value_get_int`: the data word of a value of type `G_TYPE_INT` read as a
`gint`; on a value of another type the check `G_VALUE_HOLDS_INT` fails and the
function returns 0. -/
def g_value_get_int (value : GValue) : Int :=
  if value.g_type = .G_TYPE_INT then gint_of_guint value.data
  else 0

/-- `g_value_set_uint`: stores a `guint` in the data word of a value of type
`G_TYPE_UINT`; on a value of another type the check `G_VALUE_HOLDS_UINT` fails
and the function returns without storing. -/
def g_value_set_uint (value : GValue) (v_uint : Nat) : GValue :=
  if value.g_type = .G_TYPE_UINT then { value with data := v_uint % 4294967296 }
  else value

/-- `g_value_get_uint`: the data word of a value of type `G_TYPE_UINT` read as a
`guint`; on a value of another type the check `G_VALUE_HOLDS_UINT` fails and
the function returns 0. -/
def g_value_get_uint (value : GValue) : Nat :=
  if value.g_type = .G_TYPE_UINT then value.data % 4294967296
  else 0

/-- `gb_source_auto_indenter_c_get_property`: the `GValue` after the call.  The
`gint` field is passed to `g_value_set_uint`, which converts it to a `guint`;
another property identifier only logs a warning. -/
def gb_source_auto_indenter_c_get_property (priv : GbSourceAutoIndenterCPrivate)
    (prop_id : Nat) (value : GValue) : GValue :=
  if prop_id = PROP_SCOPE_INDENT then
    g_value_set_uint value (guint_of_gint priv.scope_indent)
  else
    value

/-- `gb_source_auto_indenter_c_set_property`: the private data after the call.
The `guint` that `g_value_get_uint` returns is assigned to the `gint` field;
another property identifier only logs a warning. -/
def gb_source_auto_indenter_c_set_property (priv : GbSourceAutoIndenterCPrivate)
    (prop_id : Nat) (value : GValue) : GbSourceAutoIndenterCPrivate :=
  if prop_id = PROP_SCOPE_INDENT then
    { priv with scope_indent := gint_of_guint (g_value_get_uint value) }
  else
    priv

/-- `gb_source_auto_indenter_c_init`: both indents start at 2. -/
def gb_source_auto_indenter_c_init : GbSourceAutoIndenterCPrivate :=
  { scope_indent := 2, condition_indent := 2 }

/-! ## The navigation list (`src/navigation/gb-navigation-list.c`)

The items of the `GPtrArray` are a list, an item being a value of any type (a
pointer to a `GbNavigationItem`, never `NULL`: `gb_navigation_list_append`
refuses anything else).  The cursor `current` is a `gint`, the length of the
array a `guint`; where the source compares or assigns one to the other the
conversion is written out.  The functions of GLib on the array are modelled
after their documentation. -/

/-- `NAVIGATION_MAX_ITEMS`. -/
def NAVIGATION_MAX_ITEMS : Nat := 32

/-- `struct _GbNavigationListPrivate`, without the pointer to the workbench. -/
structure GbNavigationListPrivate (α : Type) where
  items : List α
  current : Int
deriving DecidableEq, Repr

/-- `g_ptr_array_remove_range (array, index_, length)`: removes `length`
elements starting at `index_`; a range that extends past the end of the array
fails the precondition check of the function, which then leaves the array as
it is. -/
def g_ptr_array_remove_range {α : Type} (array : List α) (index length : Nat) : List α :=
  if index + length ≤ array.length then array.take index ++ array.drop (index + length)
  else array

/-- `g_ptr_array_remove_index (array, index_)`: removes the element at `index_`,
the following elements moving down one place. -/
def g_ptr_array_remove_index {α : Type} (array : List α) (index : Nat) : List α :=
  if index < array.length then array.eraseIdx index else array

/-- `g_ptr_array_add (array, data)`: appends `data`. -/
def g_ptr_array_add {α : Type} (array : List α) (data : α) : List α :=
  array ++ [data]

/-- `gb_navigation_list_init`: no items, `current = -1`. -/
def gb_navigation_list_init {α : Type} : GbNavigationListPrivate α :=
  { items := [], current := -1 }

/-- `gb_navigation_list_get_depth`. -/
def gb_navigation_list_get_depth {α : Type} (priv : GbNavigationListPrivate α) : Nat :=
  priv.items.length

/-- `gb_navigation_list_get_can_go_backward`. -/
def gb_navigation_list_get_can_go_backward {α : Type} (priv : GbNavigationListPrivate α) :
    Bool :=
  decide (priv.current > 0)

/-- `gb_navigation_list_get_can_go_forward`: `current + 1` is compared with the
unsigned length, as an unsigned number. -/
def gb_navigation_list_get_can_go_forward {α : Type} (priv : GbNavigationListPrivate α) :
    Bool :=
  decide (guint_of_gint (priv.current + 1) < priv.items.length)

/-- `gb_navigation_list_go_backward`. -/
def gb_navigation_list_go_backward {α : Type} (priv : GbNavigationListPrivate α) :
    GbNavigationListPrivate α :=
  if gb_navigation_list_get_can_go_backward priv then
    { priv with current := priv.current - 1 }
  else
    priv

/-- `gb_navigation_list_go_forward`. -/
def gb_navigation_list_go_forward {α : Type} (priv : GbNavigationListPrivate α) :
    GbNavigationListPrivate α :=
  if gb_navigation_list_get_can_go_forward priv then
    { priv with current := priv.current + 1 }
  else
    priv

/-- `gb_navigation_list_get_current_item`: `none` stands for `NULL`; `current` is
compared with the unsigned length as an unsigned number. -/
def gb_navigation_list_get_current_item {α : Type} (priv : GbNavigationListPrivate α) :
    Option α :=
  if guint_of_gint priv.current < priv.items.length then
    priv.items[guint_of_gint priv.current]?
  else
    none

/-- `gb_navigation_list_append`. -/
def gb_navigation_list_append {α : Type} (priv : GbNavigationListPrivate α) (item : α) :
    GbNavigationListPrivate α :=
  let position := guint_of_gint (priv.current + 1)
  let items :=
    if priv.items.length > guint_of_gint (priv.current + 1) then
      g_ptr_array_remove_range priv.items position (priv.items.length - 1)
    else
      priv.items
  let state : List α × Int :=
    if items.length = NAVIGATION_MAX_ITEMS then
      (g_ptr_array_remove_index items 0, priv.current - 1)
    else
      (items, priv.current)
  let items := g_ptr_array_add state.1 item
  { items := items, current := gint_of_guint (items.length - 1) }

/-- A call of one of the three functions that change a navigation list. -/
inductive NavigationCall (α : Type) where
  | append (item : α)
  | go_backward
  | go_forward
deriving DecidableEq, Repr

/-- The navigation list after one call. -/
def navigation_call {α : Type} (priv : GbNavigationListPrivate α) :
    NavigationCall α → GbNavigationListPrivate α
  | .append item => gb_navigation_list_append priv item
  | .go_backward => gb_navigation_list_go_backward priv
  | .go_forward => gb_navigation_list_go_forward priv

/-- The navigation list after a sequence of calls on a newly initialised one. -/
def navigation_run {α : Type} (calls : List (NavigationCall α)) : GbNavigationListPrivate α :=
  calls.foldl navigation_call gb_navigation_list_init

/-! ## The document manager (`src/documents/gb-document-manager.c`)

The documents of the `GPtrArray` are a list, a document being a value of a type
with decidable equality (a pointer to a `GbDocument`, compared with `==`). -/

/-- `struct _GbDocumentManagerPrivate`. -/
structure GbDocumentManagerPrivate (α : Type) where
  documents : List α
deriving DecidableEq, Repr

/-- `g_ptr_array_remove_index_fast (array, index_)`: removes the element at
`index_`, the last element of the array taking its place. -/
def g_ptr_array_remove_index_fast {α : Type} (array : List α) (index : Nat) : List α :=
  if index < array.length then
    match array.getLast? with
    | some last =>
      if index ≠ array.length - 1 then (array.set index last).dropLast
      else array.dropLast
    | none => array
  else
    array

/-- `gb_document_manager_init`: an empty array. -/
def gb_document_manager_init {α : Type} : GbDocumentManagerPrivate α :=
  { documents := [] }

/-- `gb_document_manager_get_count`. -/
def gb_document_manager_get_count {α : Type} (priv : GbDocumentManagerPrivate α) : Nat :=
  priv.documents.length

/-- The loop `for (i = 0; i < documents->len; i++)` of `gb_document_manager_add`
and of `gb_document_manager_remove`, from index `i` with `remaining` indices to
go: the first index at which `item == document`. -/
def gb_document_manager_find {α : Type} [DecidableEq α] (documents : List α) (document : α) :
    Nat → Nat → Option Nat
  | 0, _ => none
  | remaining + 1, i =>
    if documents[i]? = some document then some i
    else gb_document_manager_find documents document remaining (i + 1)

/-- `gb_document_manager_add`: returns at once when the document is found. -/
def gb_document_manager_add {α : Type} [DecidableEq α] (priv : GbDocumentManagerPrivate α)
    (document : α) : GbDocumentManagerPrivate α :=
  match gb_document_manager_find priv.documents document priv.documents.length 0 with
  | some _ => priv
  | none => { documents := g_ptr_array_add priv.documents document }

/-- `gb_document_manager_remove`: removes the document at the first index where
it is found, and leaves the loop. -/
def gb_document_manager_remove {α : Type} [DecidableEq α] (priv : GbDocumentManagerPrivate α)
    (document : α) : GbDocumentManagerPrivate α :=
  match gb_document_manager_find priv.documents document priv.documents.length 0 with
  | some i => { documents := g_ptr_array_remove_index_fast priv.documents i }
  | none => priv

/-- A call of one of the two functions that change the document manager. -/
inductive DocumentCall (α : Type) where
  | add (document : α)
  | remove (document : α)
deriving DecidableEq, Repr

/-- The document manager after one call. -/
def document_call {α : Type} [DecidableEq α] (priv : GbDocumentManagerPrivate α) :
    DocumentCall α → GbDocumentManagerPrivate α
  | .add document => gb_document_manager_add priv document
  | .remove document => gb_document_manager_remove priv document

/-- The document manager after a sequence of calls on a newly initialised one. -/
def document_run {α : Type} [DecidableEq α] (calls : List (DocumentCall α)) :
    GbDocumentManagerPrivate α :=
  calls.foldl document_call gb_document_manager_init

/-! ## Closed forms used in the proofs -/

/-- First offset of the line of `iter`, found by walking backward to the
nearest line break: the closed form of `gtk_text_buffer_get_iter_at_line`
applied to `gtk_text_iter_get_line`, used in the proofs only. -/
def line_start (buf : List Char) : Nat → Nat
  | 0 => 0
  | iter + 1 => if gtk_text_iter_get_char buf iter = '\n' then iter + 1 else line_start buf iter

/-- The characters the copy loop of `build_indent` appends when it starts at
`iter` and may go up to `matching_line`: the normalised characters at the
offsets `iter`, ..., `min matching_line (length - 1)`, and always at least one. -/
def copied (buf : List Char) (matching_line iter : Nat) : List Char :=
  (List.range' iter (min matching_line (buf.length - 1) - iter + 1)).map
    (fun i => indent_char (gtk_text_iter_get_char buf i))

/-- What holds of a navigation list after any sequence of calls: at most
`NAVIGATION_MAX_ITEMS` items, and a cursor that is `-1` on an empty list and
the index of an item otherwise. -/
def navigation_invariant {α : Type} (priv : GbNavigationListPrivate α) : Prop :=
  priv.items.length ≤ NAVIGATION_MAX_ITEMS
    ∧ ((priv.items = [] ∧ priv.current = -1)
        ∨ (0 ≤ priv.current ∧ priv.current < priv.items.length))

/-! ## The buffer primitives -/

theorem get_char_of_lt (buf : List Char) (i : Nat) (h : i < buf.length) :
    gtk_text_iter_get_char buf i = buf[i] := by
  simp [gtk_text_iter_get_char, List.getD_eq_getElem?_getD, List.getElem?_eq_getElem h]

theorem get_char_of_le (buf : List Char) (i : Nat) (h : buf.length ≤ i) :
    gtk_text_iter_get_char buf i = Char.ofNat 0 := by
  simp [gtk_text_iter_get_char, List.getD_eq_getElem?_getD, List.getElem?_eq_none h]

theorem lt_length_of_get_char (buf : List Char) (i : Nat) (c : Char)
    (h : gtk_text_iter_get_char buf i = c) (hc : c ≠ Char.ofNat 0) : i < buf.length := by
  by_contra hlt
  exact hc (h ▸ get_char_of_le buf i (Nat.le_of_not_lt hlt))

theorem take_succ_of_lt (buf : List Char) (i : Nat) (h : i < buf.length) :
    buf.take (i + 1) = buf.take i ++ [gtk_text_iter_get_char buf i] := by
  rw [get_char_of_lt buf i h, List.take_succ, List.getElem?_eq_getElem h]
  rfl

theorem iter_at_line_after_break (a b : List Char) (l : Nat) :
    gtk_text_buffer_get_iter_at_line (a ++ '\n' :: b) (a.count '\n' + 1 + l)
      = a.length + 1 + gtk_text_buffer_get_iter_at_line b l := by
  induction a with
  | nil =>
    have : List.count '\n' ([] : List Char) + 1 + l = l + 1 := by simp; omega
    rw [this]
    simp [gtk_text_buffer_get_iter_at_line]
  | cons c a ih =>
    by_cases hc : c = '\n'
    · subst hc
      have : List.count '\n' ('\n' :: a) + 1 + l = (a.count '\n' + 1 + l) + 1 := by
        simp; omega
      rw [List.cons_append, this]
      simp only [gtk_text_buffer_get_iter_at_line, if_true, ih]
      simp; omega
    · have : List.count '\n' (c :: a) + 1 + l = (a.count '\n' + l) + 1 := by
        rw [List.count_cons_of_ne (Ne.symm hc)]; omega
      rw [List.cons_append, this]
      simp only [gtk_text_buffer_get_iter_at_line, if_neg hc]
      have h2 : a.count '\n' + l + 1 = a.count '\n' + 1 + l := by omega
      rw [h2, ih]
      simp; omega

theorem iter_at_line_eq_line_start (buf : List Char) (iter : Nat) :
    gtk_text_buffer_get_iter_at_line buf (gtk_text_iter_get_line buf iter)
      = line_start buf iter := by
  induction iter with
  | zero => simp [gtk_text_iter_get_line, line_start, gtk_text_buffer_get_iter_at_line]
  | succ i ih =>
    by_cases hi : i < buf.length
    · by_cases hc : gtk_text_iter_get_char buf i = '\n'
      · have hsplit : buf = buf.take i ++ '\n' :: buf.drop (i + 1) := by
          have := List.take_append_drop (i + 1) buf
          rw [take_succ_of_lt buf i hi, hc] at this
          simpa using this.symm
        have hline : gtk_text_iter_get_line buf (i + 1) = (buf.take i).count '\n' + 1 + 0 := by
          simp [gtk_text_iter_get_line, take_succ_of_lt buf i hi, hc]
        have hlen : (buf.take i).length = i := by simp; omega
        have key : ∀ a b : List Char, buf = a ++ '\n' :: b → a.length = i →
            gtk_text_buffer_get_iter_at_line buf (a.count '\n' + 1 + 0) = i + 1 := by
          intro a b h1 h2
          subst h1
          rw [iter_at_line_after_break, h2]
          simp [gtk_text_buffer_get_iter_at_line]
        rw [hline, key _ _ hsplit hlen]
        simp [line_start, hc]
      · have hline : gtk_text_iter_get_line buf (i + 1) = gtk_text_iter_get_line buf i := by
          simp only [gtk_text_iter_get_line, take_succ_of_lt buf i hi, List.count_append]
          rw [List.count_singleton]
          simp [hc]
        rw [hline, ih]
        simp [line_start, hc]
    · have hc : gtk_text_iter_get_char buf i ≠ '\n' := by
        rw [get_char_of_le buf i (Nat.le_of_not_lt hi)]; decide
      have hline : gtk_text_iter_get_line buf (i + 1) = gtk_text_iter_get_line buf i := by
        simp only [gtk_text_iter_get_line]
        rw [List.take_of_length_le (by omega), List.take_of_length_le (by omega)]
      rw [hline, ih]
      simp [line_start, hc]

theorem line_start_le (buf : List Char) (iter : Nat) : line_start buf iter ≤ iter := by
  induction iter with
  | zero => simp [line_start]
  | succ i ih =>
    simp only [line_start]
    split <;> omega

theorem line_start_succ_of_ne (buf : List Char) (iter : Nat)
    (h : gtk_text_iter_get_char buf iter ≠ '\n') :
    line_start buf (iter + 1) = line_start buf iter := by
  simp [line_start, h]

theorem line_offset_eq (buf : List Char) (iter : Nat) :
    gtk_text_iter_get_line_offset buf iter = iter - line_start buf iter := by
  simp [gtk_text_iter_get_line_offset, iter_at_line_eq_line_start]

/-! ## The loops of `build_indent` -/

theorem build_indent_copy_eq (buf : List Char) (matching_line : Nat) :
    ∀ (fuel iter : Nat) (str : List Char),
      min matching_line (buf.length - 1) - iter + 1 ≤ fuel →
      build_indent_copy buf matching_line fuel iter str
        = .ok (str ++ copied buf matching_line iter) := by
  intro fuel
  induction fuel with
  | zero => intro iter str h; omega
  | succ fuel ih =>
    intro iter str h
    by_cases hcont : iter < min matching_line (buf.length - 1)
    · have h1 : iter + 1 < buf.length := by omega
      have h2 : iter + 1 ≤ matching_line := by omega
      have hk : min matching_line (buf.length - 1) - iter + 1
          = (min matching_line (buf.length - 1) - (iter + 1) + 1) + 1 := by omega
      simp only [build_indent_copy, gtk_text_iter_forward_char, if_pos (show iter < buf.length by omega)]
      simp only [h1, h2, decide_True, Bool.and_self, if_true]
      rw [ih (iter + 1) _ (by omega)]
      simp only [copied]
      rw [hk]
      simp [List.range'_succ]
    · have hk : min matching_line (buf.length - 1) - iter + 1 = 1 := by omega
      have hstop : ((gtk_text_iter_forward_char buf iter).1
          && decide ((gtk_text_iter_forward_char buf iter).2 ≤ matching_line)) = false := by
        simp only [gtk_text_iter_forward_char]
        split
        · simp only [Bool.and_eq_false_imp, decide_eq_true_eq, decide_eq_false_iff_not]
          intro h3; omega
        · simp
      simp only [build_indent_copy, hstop, copied, hk]
      simp

theorem build_indent_pad_eq (missing : Nat) (str : List Char) :
    build_indent_pad missing str = str ++ List.replicate missing ' ' := by
  induction missing generalizing str with
  | zero => simp [build_indent_pad]
  | succ m ih =>
    simp only [build_indent_pad]
    rw [ih, List.replicate_succ]
    simp

theorem copied_length (buf : List Char) (matching_line iter : Nat) :
    (copied buf matching_line iter).length
      = min matching_line (buf.length - 1) - iter + 1 := by
  simp [copied]

theorem build_indent_eq (line_offset : Nat) (buf : List Char) (matching_line : Nat)
    (str : List Char) :
    build_indent line_offset buf matching_line str
      = .ok (str ++ copied buf matching_line (line_start buf matching_line)
          ++ List.replicate
              (line_offset - (str ++ copied buf matching_line (line_start buf matching_line)).length)
              ' ') := by
  simp only [build_indent, iter_at_line_eq_line_start]
  rw [build_indent_copy_eq buf matching_line (buf.length + 1) _ str (by omega)]
  simp only [bind, Except.bind, pure, Except.pure, build_indent_pad_eq]

/-! ## The backward scan -/

theorem loop_found_char (buf : List Char) (mtch ch : Char) :
    ∀ (iter count p : Nat),
      backward_find_matching_loop buf mtch ch iter count = (true, p) →
      p < iter ∧ gtk_text_iter_get_char buf p = mtch := by
  intro iter
  induction iter with
  | zero => intro count p h; simp [backward_find_matching_loop] at h
  | succ i ih =>
    intro count p h
    simp only [backward_find_matching_loop] at h
    split at h
    · rename_i hm
      split at h
      · simp only [Prod.mk.injEq, true_and] at h
        subst h
        exact ⟨Nat.lt_succ_self _, hm⟩
      · have := ih _ _ h
        exact ⟨by omega, this.2⟩
    · split at h
      · have := ih _ _ h
        exact ⟨by omega, this.2⟩
      · have := ih _ _ h
        exact ⟨by omega, this.2⟩

theorem count_segment_succ (buf : List Char) (x : Char) (p i : Nat) (hp : p ≤ i)
    (hi : i < buf.length) :
    ((buf.take (i + 1)).drop p).count x
      = ((buf.take i).drop p).count x + (if gtk_text_iter_get_char buf i = x then 1 else 0) := by
  rw [take_succ_of_lt buf i hi, List.drop_append_of_le_length (by simp; omega),
    List.count_append, List.count_singleton]
  simp

theorem loop_not_found (buf : List Char) (mtch ch : Char) (hne : mtch ≠ ch) :
    ∀ (iter count : Nat), iter ≤ buf.length → 1 ≤ count → count + iter < 4294967296 →
      (∀ p, p < iter →
        ((buf.take iter).drop p).count mtch ≠ ((buf.take iter).drop p).count ch + count) →
      backward_find_matching_loop buf mtch ch iter count = (false, 0) := by
  intro iter
  induction iter with
  | zero => intro count _ _ _ _; simp [backward_find_matching_loop]
  | succ i ih =>
    intro count hlen hc hbound hno
    have hi : i < buf.length := by omega
    have hseg : ∀ x p, p ≤ i → ((buf.take (i + 1)).drop p).count x
        = ((buf.take i).drop p).count x + (if gtk_text_iter_get_char buf i = x then 1 else 0) :=
      fun x p hp => count_segment_succ buf x p i hp hi
    have hself : ∀ x, ((buf.take i).drop i).count x = 0 := by
      intro x
      rw [List.drop_of_length_le (by simp)]
      simp
    simp only [backward_find_matching_loop]
    by_cases hm : gtk_text_iter_get_char buf i = mtch
    · have h1 := hno i (Nat.lt_succ_self i)
      rw [hseg mtch i le_rfl, hseg ch i le_rfl, hself, hself] at h1
      simp only [hm, hne, if_true, if_false] at h1
      have hc2 : 2 ≤ count := by omega
      have hmod : (count + 4294967295) % 4294967296 = count - 1 := by omega
      rw [if_pos hm, hmod, if_neg (by omega)]
      apply ih (count - 1) (by omega) (by omega) (by omega)
      intro p hp
      have h2 := hno p (by omega)
      rw [hseg mtch p (by omega), hseg ch p (by omega)] at h2
      simp only [hm, hne, if_true, if_false] at h2
      omega
    · rw [if_neg hm]
      by_cases hcc : gtk_text_iter_get_char buf i = ch
      · have hmod : (count + 1) % 4294967296 = count + 1 := by omega
        rw [if_pos hcc, hmod]
        apply ih (count + 1) (by omega) (by omega) (by omega)
        intro p hp
        have h2 := hno p (by omega)
        rw [hseg mtch p (by omega), hseg ch p (by omega)] at h2
        simp only [hcc, Ne.symm hne, if_true, if_false] at h2
        omega
      · rw [if_neg hcc]
        apply ih count (by omega) hc (by omega)
        intro p hp
        have h2 := hno p (by omega)
        rw [hseg mtch p (by omega), hseg ch p (by omega)] at h2
        simp only [hm, hcc, if_false] at h2
        omega

theorem loop_spec (buf : List Char) (mtch ch : Char) (hne : mtch ≠ ch) :
    ∀ (iter count : Nat), iter ≤ buf.length → 1 ≤ count → count + iter < 4294967296 →
      (∃ p, backward_find_matching_loop buf mtch ch iter count = (true, p)
          ∧ p < iter ∧ gtk_text_iter_get_char buf p = mtch
          ∧ ((buf.take iter).drop p).count mtch = ((buf.take iter).drop p).count ch + count
          ∧ ∀ q, p < q → q < iter →
              ((buf.take iter).drop q).count mtch ≠ ((buf.take iter).drop q).count ch + count)
      ∨ (backward_find_matching_loop buf mtch ch iter count = (false, 0)
          ∧ ∀ p, p < iter →
              ((buf.take iter).drop p).count mtch ≠ ((buf.take iter).drop p).count ch + count) := by
  intro iter
  induction iter with
  | zero =>
    intro count _ _ _
    right
    exact ⟨by simp [backward_find_matching_loop], fun p hp => absurd hp (Nat.not_lt_zero p)⟩
  | succ i ih =>
    intro count hlen hc hbound
    have hi : i < buf.length := by omega
    have hseg : ∀ x p, p ≤ i → ((buf.take (i + 1)).drop p).count x
        = ((buf.take i).drop p).count x + (if gtk_text_iter_get_char buf i = x then 1 else 0) :=
      fun x p hp => count_segment_succ buf x p i hp hi
    have hself : ∀ x, ((buf.take i).drop i).count x = 0 := by
      intro x
      rw [List.drop_of_length_le (by simp)]
      simp
    simp only [backward_find_matching_loop]
    by_cases hm : gtk_text_iter_get_char buf i = mtch
    · rw [if_pos hm]
      by_cases hc1 : count = 1
      · subst hc1
        left
        refine ⟨i, by simp, Nat.lt_succ_self i, hm, ?_, ?_⟩
        · rw [hseg mtch i le_rfl, hseg ch i le_rfl, hself, hself]
          simp [hm, hne]
        · intro q h1 h2; omega
      · have hmod : (count + 4294967295) % 4294967296 = count - 1 := by omega
        rw [hmod, if_neg (by omega)]
        rcases ih (count - 1) (by omega) (by omega) (by omega) with ⟨p, h1, h2, h3, h4, h5⟩ | ⟨h1, h2⟩
        · left
          refine ⟨p, h1, by omega, h3, ?_, ?_⟩
          · rw [hseg mtch p (by omega), hseg ch p (by omega)]
            simp only [hm, hne, if_true, if_false]
            omega
          · intro q hq1 hq2
            rw [hseg mtch q (by omega), hseg ch q (by omega)]
            simp only [hm, hne, if_true, if_false]
            rcases Nat.lt_or_ge q i with hq | hq
            · have := h5 q hq1 hq
              omega
            · have hqi : q = i := by omega
              subst hqi
              rw [hself, hself]
              omega
        · right
          refine ⟨h1, ?_⟩
          intro q hq
          rw [hseg mtch q (by omega), hseg ch q (by omega)]
          simp only [hm, hne, if_true, if_false]
          rcases Nat.lt_or_ge q i with hq2 | hq2
          · have := h2 q hq2
            omega
          · have hqi : q = i := by omega
            subst hqi
            rw [hself, hself]
            omega
    · rw [if_neg hm]
      by_cases hcc : gtk_text_iter_get_char buf i = ch
      · have hmod : (count + 1) % 4294967296 = count + 1 := by omega
        rw [if_pos hcc, hmod]
        rcases ih (count + 1) (by omega) (by omega) (by omega) with ⟨p, h1, h2, h3, h4, h5⟩ | ⟨h1, h2⟩
        · left
          refine ⟨p, h1, by omega, h3, ?_, ?_⟩
          · rw [hseg mtch p (by omega), hseg ch p (by omega)]
            simp only [hcc, Ne.symm hne, if_true, if_false]
            omega
          · intro q hq1 hq2
            rw [hseg mtch q (by omega), hseg ch q (by omega)]
            simp only [hcc, Ne.symm hne, if_true, if_false]
            rcases Nat.lt_or_ge q i with hq | hq
            · have := h5 q hq1 hq
              omega
            · have hqi : q = i := by omega
              subst hqi
              rw [hself, hself]
              omega
        · right
          refine ⟨h1, ?_⟩
          intro q hq
          rw [hseg mtch q (by omega), hseg ch q (by omega)]
          simp only [hcc, Ne.symm hne, if_true, if_false]
          rcases Nat.lt_or_ge q i with hq2 | hq2
          · have := h2 q hq2
            omega
          · have hqi : q = i := by omega
            subst hqi
            rw [hself, hself]
            omega
      · rw [if_neg hcc]
        rcases ih count (by omega) hc (by omega) with ⟨p, h1, h2, h3, h4, h5⟩ | ⟨h1, h2⟩
        · left
          refine ⟨p, h1, by omega, h3, ?_, ?_⟩
          · rw [hseg mtch p (by omega), hseg ch p (by omega)]
            simp only [hm, hcc, if_false]
            omega
          · intro q hq1 hq2
            rw [hseg mtch q (by omega), hseg ch q (by omega)]
            simp only [hm, hcc, if_false]
            rcases Nat.lt_or_ge q i with hq | hq
            · have := h5 q hq1 hq
              omega
            · have hqi : q = i := by omega
              subst hqi
              rw [hself, hself]
              omega
        · right
          refine ⟨h1, ?_⟩
          intro q hq
          rw [hseg mtch q (by omega), hseg ch q (by omega)]
          simp only [hm, hcc, if_false]
          rcases Nat.lt_or_ge q i with hq2 | hq2
          · have := h2 q hq2
            omega
          · have hqi : q = i := by omega
            subst hqi
            rw [hself, hself]
            omega

/-! ## The loop of `line_is_space` -/

theorem line_is_space_loop_false (buf : List Char) (iter : Nat) (hiter : iter < buf.length)
    (hch : ¬ (gtk_text_iter_get_char buf iter = '\t' ∨ gtk_text_iter_get_char buf iter = ' ')) :
    ∀ (fuel begin : Nat), begin < iter → iter - begin ≤ fuel →
      line_is_space_loop buf iter fuel begin = .ok false := by
  intro fuel
  induction fuel with
  | zero => intro begin h1 h2; omega
  | succ fuel ih =>
    intro begin h1 h2
    have hne : iter ≠ begin := by omega
    have hfwd : gtk_text_iter_forward_char buf begin = (true, begin + 1) := by
      simp only [gtk_text_iter_forward_char, if_pos (show begin < buf.length by omega)]
      simp; omega
    simp only [line_is_space_loop, if_neg hne, hfwd]
    by_cases hsp : gtk_text_iter_get_char buf (begin + 1) = '\t'
        ∨ gtk_text_iter_get_char buf (begin + 1) = ' '
    · have hlt : begin + 1 < iter := by
        rcases Nat.lt_or_ge (begin + 1) iter with h | h
        · exact h
        · have : begin + 1 = iter := by omega
          exact absurd (this ▸ hsp) hch
      simp only [Bool.not_true, Bool.false_eq_true, if_false, if_pos hsp]
      exact ih (begin + 1) hlt (by omega)
    · simp only [Bool.not_true, Bool.false_eq_true, if_false, if_neg hsp]

theorem line_is_space_loop_total (buf : List Char) (iter : Nat) :
    ∀ (fuel begin : Nat), begin ≤ iter → min iter buf.length - begin + 1 ≤ fuel →
      ∃ b, line_is_space_loop buf iter fuel begin = .ok b := by
  intro fuel
  induction fuel with
  | zero => intro begin h1 h2; omega
  | succ fuel ih =>
    intro begin h1 h2
    simp only [line_is_space_loop]
    by_cases he : iter = begin
    · exact ⟨true, by rw [if_pos he]⟩
    · rw [if_neg he]
      by_cases hmv : begin + 1 < buf.length
      · have hfwd : gtk_text_iter_forward_char buf begin = (true, begin + 1) := by
          simp only [gtk_text_iter_forward_char, if_pos (show begin < buf.length by omega)]
          simp [hmv]
        simp only [hfwd, Bool.not_true, Bool.false_eq_true, if_false]
        split
        · exact ih (begin + 1) (by omega) (by omega)
        · exact ⟨false, rfl⟩
      · have hfwd : (gtk_text_iter_forward_char buf begin).1 = false := by
          simp only [gtk_text_iter_forward_char]
          split
          · simp [hmv]
          · rfl
        refine ⟨true, ?_⟩
        simp [hfwd]

theorem line_is_space_total (buf : List Char) (iter : Nat) :
    ∃ b, line_is_space buf iter = .ok b := by
  unfold line_is_space
  rw [iter_at_line_eq_line_start]
  apply line_is_space_loop_total buf iter _ _ (line_start_le buf iter)
  have := Nat.min_le_right iter buf.length
  omega

/-! ## The branches of the query -/

theorem query_brace_false (scope_indent : Int) (buf : List Char) (p : Nat)
    (hch : gtk_text_iter_get_char buf p = '{') (hls : line_is_space buf p = .ok false) :
    gb_source_auto_indenter_c_query scope_indent buf (p + 1) = .ok ([], p + 1) := by
  simp [gb_source_auto_indenter_c_query, gtk_text_iter_backward_char, hch, hls, bind,
    Except.bind, pure, Except.pure]

theorem query_close_not_found (scope_indent : Int) (buf : List Char) (p q : Nat) (ch : Char)
    (hch : gtk_text_iter_get_char buf p = ch) (hcl : ch = ')' ∨ ch = '}')
    (hfind : backward_find_matching_char buf p ch = .ok (false, q)) :
    gb_source_auto_indenter_c_query scope_indent buf (p + 1) = .ok ([], p + 1) := by
  rcases hcl with h | h <;> subst h <;>
  simp [gb_source_auto_indenter_c_query, gtk_text_iter_backward_char, hch, hfind, bind,
    Except.bind, pure, Except.pure]

theorem query_comma_found (scope_indent : Int) (buf : List Char) (p q : Nat) (str : List Char)
    (hch : gtk_text_iter_get_char buf p = ',')
    (hfind : backward_find_matching_char buf p ')' = .ok (true, q))
    (hbuild : build_indent (gtk_text_iter_get_line_offset buf q) buf q [] = .ok str) :
    gb_source_auto_indenter_c_query scope_indent buf (p + 1) = .ok (str, p + 1) := by
  simp [gb_source_auto_indenter_c_query, gtk_text_iter_backward_char, hch, hfind, hbuild, bind,
    Except.bind, pure, Except.pure, Functor.map, Except.map]

theorem query_semicolon (scope_indent : Int) (buf : List Char) (p : Nat) (str : List Char)
    (hch : gtk_text_iter_get_char buf p = ';')
    (hbuild : build_indent 0 buf (p + 1) [] = .ok str) :
    gb_source_auto_indenter_c_query scope_indent buf (p + 1) = .ok (str, p + 1) := by
  simp [gb_source_auto_indenter_c_query, gtk_text_iter_backward_char, hch, hbuild, bind,
    Except.bind, pure, Except.pure, Functor.map, Except.map, backward_find_stmt_expr]

theorem query_other (scope_indent : Int) (buf : List Char) (p : Nat)
    (h1 : gtk_text_iter_get_char buf p ≠ '{') (h2 : gtk_text_iter_get_char buf p ≠ ')')
    (h3 : gtk_text_iter_get_char buf p ≠ ']') (h4 : gtk_text_iter_get_char buf p ≠ '}')
    (h5 : gtk_text_iter_get_char buf p ≠ ',') (h6 : gtk_text_iter_get_char buf p ≠ ';') :
    gb_source_auto_indenter_c_query scope_indent buf (p + 1) = .ok ([], p + 1) := by
  simp [gb_source_auto_indenter_c_query, gtk_text_iter_backward_char, h1, h2, h3, h4, h5, h6,
    bind, Except.bind, pure, Except.pure]

theorem query_brace_true (scope_indent : Int) (buf : List Char) (p : Nat) (str : List Char)
    (hch : gtk_text_iter_get_char buf p = '{') (hls : line_is_space buf p = .ok true)
    (hbuild : build_indent (guint_add_gint (gtk_text_iter_get_line_offset buf p) scope_indent)
      buf p [] = .ok str) :
    gb_source_auto_indenter_c_query scope_indent buf (p + 1) = .ok (str, p + 1) := by
  simp [gb_source_auto_indenter_c_query, gtk_text_iter_backward_char, hch, hls, hbuild, bind,
    Except.bind, pure, Except.pure, Functor.map, Except.map]

theorem query_close_found (scope_indent : Int) (buf : List Char) (p q : Nat) (ch : Char)
    (hch : gtk_text_iter_get_char buf p = ch) (hcl : ch = ')' ∨ ch = '}')
    (hfind : backward_find_matching_char buf p ch = .ok (true, q)) :
    gb_source_auto_indenter_c_query scope_indent buf (p + 1) = .ok ([], p + 1) := by
  rcases hcl with h | h <;> subst h <;>
  simp [gb_source_auto_indenter_c_query, gtk_text_iter_backward_char, hch, hfind, bind,
    Except.bind, pure, Except.pure]

theorem query_close_bracket (scope_indent : Int) (buf : List Char) (p : Nat)
    (hch : gtk_text_iter_get_char buf p = ']') :
    gb_source_auto_indenter_c_query scope_indent buf (p + 1) = .error .assert_not_reached := by
  simp [gb_source_auto_indenter_c_query, gtk_text_iter_backward_char, hch,
    backward_find_matching_char, bind, Except.bind, pure, Except.pure]

theorem query_comma_not_found (scope_indent : Int) (buf : List Char) (p q : Nat)
    (hch : gtk_text_iter_get_char buf p = ',')
    (hfind : backward_find_matching_char buf p ')' = .ok (false, q)) :
    gb_source_auto_indenter_c_query scope_indent buf (p + 1) = .ok ([], p + 1) := by
  simp [gb_source_auto_indenter_c_query, gtk_text_iter_backward_char, hch, hfind, bind,
    Except.bind, pure, Except.pure]

/-- The outcomes of the query: it stops in the assertion exactly after a `]`,
and otherwise returns, with the iterator restored, either the empty string or a
string built by `build_indent` from the empty string. -/
theorem query_outcome (scope_indent : Int) (buf : List Char) (pos : Nat) :
    (0 < pos ∧ gtk_text_iter_get_char buf (pos - 1) = ']'
        ∧ gb_source_auto_indenter_c_query scope_indent buf pos = .error .assert_not_reached)
    ∨ (¬ (0 < pos ∧ gtk_text_iter_get_char buf (pos - 1) = ']')
        ∧ ∃ str, gb_source_auto_indenter_c_query scope_indent buf pos = .ok (str, pos)
          ∧ (str = [] ∨ ∃ line_offset matching_line,
                build_indent line_offset buf matching_line [] = .ok str)) := by
  rcases Nat.eq_zero_or_pos pos with h0 | hpos
  · subst h0
    right
    exact ⟨by simp, [], rfl, Or.inl rfl⟩
  obtain ⟨p, rfl⟩ : ∃ p, pos = p + 1 := ⟨pos - 1, by omega⟩
  simp only [Nat.add_sub_cancel]
  by_cases hb : gtk_text_iter_get_char buf p = ']'
  · left
    exact ⟨hpos, hb, query_close_bracket scope_indent buf p hb⟩
  right
  refine ⟨fun h => hb h.2, ?_⟩
  by_cases h1 : gtk_text_iter_get_char buf p = '{'
  · obtain ⟨b, hls⟩ := line_is_space_total buf p
    cases b with
    | false => exact ⟨[], query_brace_false scope_indent buf p h1 hls, Or.inl rfl⟩
    | true =>
      exact ⟨_, query_brace_true scope_indent buf p _ h1 hls (build_indent_eq _ _ _ _),
        Or.inr ⟨_, _, build_indent_eq _ _ _ _⟩⟩
  by_cases h2 : gtk_text_iter_get_char buf p = ')'
  · cases hl : backward_find_matching_loop buf '(' ')' p 1 with
    | mk found q =>
      have hfind : backward_find_matching_char buf p ')' = .ok (found, q) := by
        simp [backward_find_matching_char, hl]
      cases found with
      | false =>
        exact ⟨[], query_close_not_found scope_indent buf p q ')' h2 (Or.inl rfl) hfind,
          Or.inl rfl⟩
      | true =>
        exact ⟨[], query_close_found scope_indent buf p q ')' h2 (Or.inl rfl) hfind, Or.inl rfl⟩
  by_cases h4 : gtk_text_iter_get_char buf p = '}'
  · cases hl : backward_find_matching_loop buf '{' '}' p 1 with
    | mk found q =>
      have hfind : backward_find_matching_char buf p '}' = .ok (found, q) := by
        simp [backward_find_matching_char, hl]
      cases found with
      | false =>
        exact ⟨[], query_close_not_found scope_indent buf p q '}' h4 (Or.inr rfl) hfind,
          Or.inl rfl⟩
      | true =>
        exact ⟨[], query_close_found scope_indent buf p q '}' h4 (Or.inr rfl) hfind, Or.inl rfl⟩
  by_cases h5 : gtk_text_iter_get_char buf p = ','
  · cases hl : backward_find_matching_loop buf '(' ')' p 1 with
    | mk found q =>
      have hfind : backward_find_matching_char buf p ')' = .ok (found, q) := by
        simp [backward_find_matching_char, hl]
      cases found with
      | false => exact ⟨[], query_comma_not_found scope_indent buf p q h5 hfind, Or.inl rfl⟩
      | true =>
        exact ⟨_, query_comma_found scope_indent buf p q _ h5 hfind (build_indent_eq _ _ _ _),
          Or.inr ⟨_, _, build_indent_eq _ _ _ _⟩⟩
  by_cases h6 : gtk_text_iter_get_char buf p = ';'
  · exact ⟨_, query_semicolon scope_indent buf p _ h6 (build_indent_eq _ _ _ _),
      Or.inr ⟨_, _, build_indent_eq _ _ _ _⟩⟩
  exact ⟨[], query_other scope_indent buf p h1 h2 hb h4 h5 h6, Or.inl rfl⟩

theorem query_returns_unless_bracket (scope_indent : Int) (buf : List Char) (pos : Nat) :
    ¬ (0 < pos ∧ gtk_text_iter_get_char buf (pos - 1) = ']') →
      ∃ str, gb_source_auto_indenter_c_query scope_indent buf pos = .ok (str, pos) := by
  intro hnb
  rcases query_outcome scope_indent buf pos with ⟨h1, h2, _⟩ | ⟨_, str, hok, _⟩
  · exact absurd ⟨h1, h2⟩ hnb
  · exact ⟨str, hok⟩

theorem build_indent_alphabet (line_offset : Nat) (buf : List Char) (matching_line : Nat)
    (str : List Char) (h : build_indent line_offset buf matching_line [] = .ok str) :
    ∀ c ∈ str, c = ' ' ∨ c = '\t' := by
  rw [build_indent_eq] at h
  injection h with h
  subst h
  intro c hc
  simp only [List.nil_append, List.mem_append, copied, List.mem_map, List.mem_replicate] at hc
  rcases hc with ⟨i, _, rfl⟩ | ⟨_, rfl⟩
  · unfold indent_char
    split
    · rename_i h; rcases h with h | h <;> simp [h]
    · exact Or.inl rfl
  · exact Or.inl rfl

/-! ## The engine with the buffer as state agrees with the engine -/

theorem build_indent_copy_st_eq (matching_line : Nat) :
    ∀ (fuel : Nat) (buf : List Char) (iter : Nat) (str : List Char),
      build_indent_copy_st matching_line fuel buf iter str
        = (build_indent_copy buf matching_line fuel iter str).map (fun r => (r, buf)) := by
  intro fuel
  induction fuel with
  | zero => intro buf iter str; rfl
  | succ fuel ih =>
    intro buf iter str
    simp only [build_indent_copy_st, build_indent_copy, gtk_text_iter_get_char_st,
      gtk_text_iter_forward_char_st]
    split
    · exact ih _ _ _
    · rfl

theorem build_indent_st_eq (line_offset : Nat) (buf : List Char) (matching_line : Nat)
    (str : List Char) :
    build_indent_st line_offset buf matching_line str
      = (build_indent line_offset buf matching_line str).map (fun r => (r, buf)) := by
  simp only [build_indent_st, build_indent, gtk_text_iter_get_line_st,
    gtk_text_buffer_get_iter_at_line_st, build_indent_copy_st_eq]
  cases build_indent_copy buf matching_line (buf.length + 1)
      (gtk_text_buffer_get_iter_at_line buf (gtk_text_iter_get_line buf matching_line)) str <;>
    rfl

theorem backward_find_matching_loop_st_eq (mtch ch : Char) (buf : List Char) :
    ∀ (iter count : Nat),
      backward_find_matching_loop_st mtch ch iter buf count
        = (backward_find_matching_loop buf mtch ch iter count, buf) := by
  intro iter
  induction iter with
  | zero => intro count; rfl
  | succ i ih =>
    intro count
    simp only [backward_find_matching_loop_st, backward_find_matching_loop,
      gtk_text_iter_get_char_st]
    split
    · split
      · rfl
      · exact ih _
    · split
      · exact ih _
      · exact ih _

theorem backward_find_matching_char_st_eq (buf : List Char) (iter : Nat) (ch : Char) :
    backward_find_matching_char_st buf iter ch
      = (backward_find_matching_char buf iter ch).map (fun r => (r, buf)) := by
  simp only [backward_find_matching_char_st, backward_find_matching_char,
    backward_find_matching_loop_st_eq]
  split
  · rfl
  · split
    · rfl
    · split <;> rfl

theorem line_is_space_loop_st_eq (iter : Nat) :
    ∀ (fuel : Nat) (buf : List Char) (begin : Nat),
      line_is_space_loop_st iter fuel buf begin
        = (line_is_space_loop buf iter fuel begin).map (fun r => (r, buf)) := by
  intro fuel
  induction fuel with
  | zero => intro buf begin; rfl
  | succ fuel ih =>
    intro buf begin
    simp only [line_is_space_loop_st, line_is_space_loop, gtk_text_iter_forward_char_st,
      gtk_text_iter_get_char_st]
    split
    · rfl
    · split
      · rfl
      · split
        · exact ih _ _
        · rfl

theorem line_is_space_st_eq (buf : List Char) (iter : Nat) :
    line_is_space_st buf iter = (line_is_space buf iter).map (fun r => (r, buf)) := by
  simp only [line_is_space_st, line_is_space, gtk_text_iter_get_line_st,
    gtk_text_buffer_get_iter_at_line_st, line_is_space_loop_st_eq]

theorem query_st_eq (scope_indent : Int) (buf : List Char) (pos : Nat) :
    gb_source_auto_indenter_c_query_st scope_indent buf pos
      = (gb_source_auto_indenter_c_query scope_indent buf pos).map
          (fun r => (r.1, buf, r.2)) := by
  cases pos with
  | zero => rfl
  | succ p =>
    have hunfold : ∀ x : Except Fault (List Char × Nat),
        gb_source_auto_indenter_c_query scope_indent buf (p + 1) = x →
        gb_source_auto_indenter_c_query_st scope_indent buf (p + 1)
          = x.map (fun r => (r.1, buf, r.2)) →
        gb_source_auto_indenter_c_query_st scope_indent buf (p + 1)
          = (gb_source_auto_indenter_c_query scope_indent buf (p + 1)).map
              (fun r => (r.1, buf, r.2)) := by
      intro x h1 h2
      rw [h1, h2]
    by_cases hb : gtk_text_iter_get_char buf p = ']'
    · apply hunfold _ (query_close_bracket scope_indent buf p hb)
      simp [gb_source_auto_indenter_c_query_st, gtk_text_iter_backward_char_st,
        gtk_text_iter_get_char_st, gtk_text_iter_backward_char, hb,
        backward_find_matching_char_st_eq, backward_find_matching_char, bind, Except.bind,
        pure, Except.pure, Except.map]
    by_cases h1 : gtk_text_iter_get_char buf p = '{'
    · obtain ⟨b, hls⟩ := line_is_space_total buf p
      cases b with
      | false =>
        apply hunfold _ (query_brace_false scope_indent buf p h1 hls)
        simp [gb_source_auto_indenter_c_query_st, gtk_text_iter_backward_char_st,
          gtk_text_iter_get_char_st, gtk_text_iter_backward_char, h1, line_is_space_st_eq, hls,
          bind, Except.bind, pure, Except.pure, Except.map]
      | true =>
        apply hunfold _
          (query_brace_true scope_indent buf p _ h1 hls (build_indent_eq _ _ _ _))
        simp [gb_source_auto_indenter_c_query_st, gtk_text_iter_backward_char_st,
          gtk_text_iter_get_char_st, gtk_text_iter_backward_char, h1, line_is_space_st_eq, hls,
          gtk_text_iter_get_line_offset_st, build_indent_st_eq, build_indent_eq,
          bind, Except.bind, pure, Except.pure, Except.map]
    by_cases h2 : gtk_text_iter_get_char buf p = ')'
    · cases hl : backward_find_matching_loop buf '(' ')' p 1 with
      | mk found q =>
        have hfind : backward_find_matching_char buf p ')' = .ok (found, q) := by
          simp [backward_find_matching_char, hl]
        cases found with
        | false =>
          apply hunfold _ (query_close_not_found scope_indent buf p q ')' h2 (Or.inl rfl) hfind)
          simp [gb_source_auto_indenter_c_query_st, gtk_text_iter_backward_char_st,
            gtk_text_iter_get_char_st, gtk_text_iter_backward_char, h2,
            backward_find_matching_char_st_eq, hfind, bind, Except.bind, pure, Except.pure,
            Except.map]
        | true =>
          apply hunfold _ (query_close_found scope_indent buf p q ')' h2 (Or.inl rfl) hfind)
          simp [gb_source_auto_indenter_c_query_st, gtk_text_iter_backward_char_st,
            gtk_text_iter_get_char_st, gtk_text_iter_backward_char, h2,
            backward_find_matching_char_st_eq, hfind, bind, Except.bind, pure, Except.pure,
            Except.map]
    by_cases h4 : gtk_text_iter_get_char buf p = '}'
    · cases hl : backward_find_matching_loop buf '{' '}' p 1 with
      | mk found q =>
        have hfind : backward_find_matching_char buf p '}' = .ok (found, q) := by
          simp [backward_find_matching_char, hl]
        cases found with
        | false =>
          apply hunfold _ (query_close_not_found scope_indent buf p q '}' h4 (Or.inr rfl) hfind)
          simp [gb_source_auto_indenter_c_query_st, gtk_text_iter_backward_char_st,
            gtk_text_iter_get_char_st, gtk_text_iter_backward_char, h4,
            backward_find_matching_char_st_eq, hfind, bind, Except.bind, pure, Except.pure,
            Except.map]
        | true =>
          apply hunfold _ (query_close_found scope_indent buf p q '}' h4 (Or.inr rfl) hfind)
          simp [gb_source_auto_indenter_c_query_st, gtk_text_iter_backward_char_st,
            gtk_text_iter_get_char_st, gtk_text_iter_backward_char, h4,
            backward_find_matching_char_st_eq, hfind, bind, Except.bind, pure, Except.pure,
            Except.map]
    by_cases h5 : gtk_text_iter_get_char buf p = ','
    · cases hl : backward_find_matching_loop buf '(' ')' p 1 with
      | mk found q =>
        have hfind : backward_find_matching_char buf p ')' = .ok (found, q) := by
          simp [backward_find_matching_char, hl]
        cases found with
        | false =>
          apply hunfold _ (query_comma_not_found scope_indent buf p q h5 hfind)
          simp [gb_source_auto_indenter_c_query_st, gtk_text_iter_backward_char_st,
            gtk_text_iter_get_char_st, gtk_text_iter_backward_char, h5,
            backward_find_matching_char_st_eq, hfind, bind, Except.bind, pure, Except.pure,
            Except.map]
        | true =>
          apply hunfold _
            (query_comma_found scope_indent buf p q _ h5 hfind (build_indent_eq _ _ _ _))
          simp [gb_source_auto_indenter_c_query_st, gtk_text_iter_backward_char_st,
            gtk_text_iter_get_char_st, gtk_text_iter_backward_char, h5,
            backward_find_matching_char_st_eq, hfind, gtk_text_iter_get_line_offset_st,
            build_indent_st_eq, build_indent_eq, bind, Except.bind, pure, Except.pure,
            Except.map]
    by_cases h6 : gtk_text_iter_get_char buf p = ';'
    · apply hunfold _ (query_semicolon scope_indent buf p _ h6 (build_indent_eq _ _ _ _))
      simp [gb_source_auto_indenter_c_query_st, gtk_text_iter_backward_char_st,
        gtk_text_iter_get_char_st, gtk_text_iter_backward_char, h6, backward_find_stmt_expr,
        build_indent_st_eq, build_indent_eq, bind, Except.bind, pure, Except.pure, Except.map]
    · apply hunfold _ (query_other scope_indent buf p h1 h2 hb h4 h5 h6)
      simp [gb_source_auto_indenter_c_query_st, gtk_text_iter_backward_char_st,
        gtk_text_iter_get_char_st, gtk_text_iter_backward_char, h1, h2, hb, h4, h5, h6,
        bind, Except.bind, pure, Except.pure, Except.map]

theorem line_is_space_at_line_start (buf : List Char) (p : Nat)
    (h : line_start buf p = p) : line_is_space buf p = .ok true := by
  unfold line_is_space
  rw [iter_at_line_eq_line_start, h]
  simp [line_is_space_loop]

theorem copied_eq_map_range (buf : List Char) (matching_line iter : Nat) :
    copied buf matching_line iter
      = (List.range (min matching_line (buf.length - 1) - iter + 1)).map
          (fun i => indent_char (gtk_text_iter_get_char buf (iter + i))) := by
  simp only [copied, List.range'_eq_map_range, List.map_map]
  rfl

/-! ## The navigation list -/

theorem remove_range_length_le {α : Type} (array : List α) (index length : Nat) :
    (g_ptr_array_remove_range array index length).length ≤ array.length := by
  unfold g_ptr_array_remove_range
  split
  · simp only [List.length_append, List.length_take, List.length_drop]
    omega
  · exact le_rfl

theorem append_length_and_cursor {α : Type} (priv : GbNavigationListPrivate α) (item : α)
    (h : priv.items.length ≤ NAVIGATION_MAX_ITEMS) :
    1 ≤ (gb_navigation_list_append priv item).items.length
      ∧ (gb_navigation_list_append priv item).items.length ≤ NAVIGATION_MAX_ITEMS
      ∧ (gb_navigation_list_append priv item).current
          = ((gb_navigation_list_append priv item).items.length : Int) - 1 := by
  have hr := remove_range_length_le priv.items (guint_of_gint (priv.current + 1))
    (priv.items.length - 1)
  simp only [NAVIGATION_MAX_ITEMS] at h ⊢
  simp only [gb_navigation_list_append, g_ptr_array_add, NAVIGATION_MAX_ITEMS,
    g_ptr_array_remove_index, gint_of_guint]
  split_ifs <;>
    simp only [List.length_append, List.length_singleton, List.length_eraseIdx] at * <;>
    (try split_ifs at *) <;> omega

theorem navigation_invariant_init {α : Type} :
    navigation_invariant (gb_navigation_list_init : GbNavigationListPrivate α) := by
  refine ⟨by simp [gb_navigation_list_init], Or.inl ⟨rfl, rfl⟩⟩

theorem navigation_invariant_call {α : Type} (priv : GbNavigationListPrivate α)
    (call : NavigationCall α) (h : navigation_invariant priv) :
    navigation_invariant (navigation_call priv call) := by
  obtain ⟨hlen, hcur⟩ := h
  cases call with
  | append item =>
    obtain ⟨h1, h2, h3⟩ := append_length_and_cursor priv item hlen
    refine ⟨h2, Or.inr ?_⟩
    simp only [navigation_call]
    omega
  | go_backward =>
    simp only [navigation_call, gb_navigation_list_go_backward,
      gb_navigation_list_get_can_go_backward]
    split
    · rename_i hc
      simp only [decide_eq_true_eq] at hc
      refine ⟨hlen, ?_⟩
      rcases hcur with ⟨_, h2⟩ | ⟨_, h2⟩
      · omega
      · right
        simp only
        omega
    · exact ⟨hlen, hcur⟩
  | go_forward =>
    simp only [navigation_call, gb_navigation_list_go_forward,
      gb_navigation_list_get_can_go_forward]
    split
    · rename_i hc
      simp only [decide_eq_true_eq, guint_of_gint] at hc
      simp only [NAVIGATION_MAX_ITEMS] at hlen
      refine ⟨hlen, ?_⟩
      rcases hcur with ⟨h1, h2⟩ | ⟨h1, h2⟩
      · rw [h1] at hc
        simp at hc
      · right
        simp only
        omega
    · exact ⟨hlen, hcur⟩

theorem navigation_invariant_run {α : Type} (calls : List (NavigationCall α)) :
    navigation_invariant (navigation_run calls) := by
  unfold navigation_run
  have key : ∀ (cs : List (NavigationCall α)) (priv : GbNavigationListPrivate α),
      navigation_invariant priv → navigation_invariant (cs.foldl navigation_call priv) := by
    intro cs
    induction cs with
    | nil => intro priv h; exact h
    | cons c cs ih =>
      intro priv h
      exact ih _ (navigation_invariant_call priv c h)
  exact key calls _ navigation_invariant_init

/-! ## The document manager -/

theorem find_some {α : Type} [DecidableEq α] (documents : List α) (document : α) :
    ∀ (remaining i j : Nat),
      gb_document_manager_find documents document remaining i = some j →
      j < documents.length ∧ documents[j]? = some document := by
  intro remaining
  induction remaining with
  | zero => intro i j h; simp [gb_document_manager_find] at h
  | succ k ih =>
    intro i j h
    simp only [gb_document_manager_find] at h
    split at h
    · rename_i hfound
      injection h with h
      subst h
      refine ⟨?_, hfound⟩
      by_contra hlt
      rw [List.getElem?_eq_none (Nat.le_of_not_lt hlt)] at hfound
      exact Option.noConfusion hfound
    · exact ih _ _ h

theorem find_none {α : Type} [DecidableEq α] (documents : List α) (document : α) :
    ∀ (remaining i : Nat), i + remaining = documents.length →
      gb_document_manager_find documents document remaining i = none →
      ∀ j, i ≤ j → j < documents.length → documents[j]? ≠ some document := by
  intro remaining
  induction remaining with
  | zero => intro i hlen _ j h1 h2; omega
  | succ k ih =>
    intro i hlen h j h1 h2
    simp only [gb_document_manager_find] at h
    split at h
    · exact Option.noConfusion h
    · rename_i hne
      rcases Nat.eq_or_lt_of_le h1 with heq | hlt
      · subst heq
        exact hne
      · exact ih (i + 1) (by omega) h j hlt h2

theorem find_none_iff_not_mem {α : Type} [DecidableEq α] (documents : List α) (document : α) :
    gb_document_manager_find documents document documents.length 0 = none
      ↔ document ∉ documents := by
  constructor
  · intro h hmem
    obtain ⟨j, hj, hget⟩ := List.getElem_of_mem hmem
    have := find_none documents document documents.length 0 (by omega) h j (Nat.zero_le j) hj
    rw [List.getElem?_eq_getElem hj, hget] at this
    exact this rfl
  · intro hnot
    cases hf : gb_document_manager_find documents document documents.length 0 with
    | none => rfl
    | some j =>
      obtain ⟨hj, hget⟩ := find_some documents document _ _ _ hf
      rw [List.getElem?_eq_getElem hj] at hget
      injection hget with hget
      exact absurd (hget ▸ List.getElem_mem hj) hnot

theorem remove_index_fast_length {α : Type} (array : List α) (index : Nat)
    (h : index < array.length) :
    (g_ptr_array_remove_index_fast array index).length + 1 = array.length := by
  unfold g_ptr_array_remove_index_fast
  rw [if_pos h]
  cases hl : array.getLast? with
  | none =>
    rw [List.getLast?_eq_none_iff] at hl
    subst hl
    simp at h
  | some last =>
    simp only
    split <;> simp only [List.length_dropLast, List.length_set] <;> omega

theorem remove_index_fast_nodup {α : Type} (array : List α) (index : Nat)
    (hn : array.Nodup) : (g_ptr_array_remove_index_fast array index).Nodup := by
  unfold g_ptr_array_remove_index_fast
  split
  · rename_i h
    cases hl : array.getLast? with
    | none => exact hn
    | some last =>
      simp only
      split
      · rename_i hne
        obtain ⟨front, hfront⟩ : ∃ front, array = front ++ [last] := by
          rw [List.getLast?_eq_some_iff] at hl
          exact hl
        subst hfront
        have hidx : index < front.length := by
          simp only [List.length_append, List.length_singleton] at h hne
          omega
        rw [List.set_append_left _ _ hidx, List.dropLast_concat]
        have hfn : front.Nodup := (List.nodup_append.mp hn).1
        have hlast : last ∉ front := by
          intro hmem
          exact (List.nodup_append.mp hn).2.2 hmem (List.mem_singleton_self last)
        rw [List.set_eq_take_append_cons_drop]
        rw [if_pos hidx]
        have hsplit : front = front.take index ++ front[index] :: front.drop (index + 1) := by
          conv_lhs => rw [← List.take_append_drop index front]
          rw [List.drop_eq_getElem_cons hidx]
        rw [hsplit] at hfn hlast
        rw [List.nodup_append] at hfn ⊢
        obtain ⟨h1, h2, h3⟩ := hfn
        rw [List.nodup_cons] at h2 ⊢
        simp only [List.mem_append, List.mem_cons, not_or] at hlast
        refine ⟨h1, ⟨hlast.2.2, h2.2⟩, ?_⟩
        intro a ha hb
        rcases List.mem_cons.mp hb with rfl | hb
        · exact hlast.1 ha
        · exact h3 ha (List.mem_cons_of_mem _ hb)
      · exact hn.sublist (List.dropLast_sublist array)
  · exact hn

theorem document_add_nodup {α : Type} [DecidableEq α] (priv : GbDocumentManagerPrivate α)
    (document : α) (hn : priv.documents.Nodup) :
    (gb_document_manager_add priv document).documents.Nodup := by
  unfold gb_document_manager_add
  cases hf : gb_document_manager_find priv.documents document priv.documents.length 0 with
  | some j => exact hn
  | none =>
    have hnot := (find_none_iff_not_mem priv.documents document).mp hf
    simp only [g_ptr_array_add]
    rw [List.nodup_append]
    refine ⟨hn, List.nodup_singleton document, ?_⟩
    intro a ha hb
    rw [List.mem_singleton] at hb
    subst hb
    exact hnot ha

theorem document_remove_nodup {α : Type} [DecidableEq α] (priv : GbDocumentManagerPrivate α)
    (document : α) (hn : priv.documents.Nodup) :
    (gb_document_manager_remove priv document).documents.Nodup := by
  unfold gb_document_manager_remove
  cases hf : gb_document_manager_find priv.documents document priv.documents.length 0 with
  | some j => exact remove_index_fast_nodup _ _ hn
  | none => exact hn

theorem document_run_nodup {α : Type} [DecidableEq α] (calls : List (DocumentCall α)) :
    (document_run calls).documents.Nodup := by
  unfold document_run
  have key : ∀ (cs : List (DocumentCall α)) (priv : GbDocumentManagerPrivate α),
      priv.documents.Nodup → (cs.foldl document_call priv).documents.Nodup := by
    intro cs
    induction cs with
    | nil => intro priv h; exact h
    | cons c cs ih =>
      intro priv h
      apply ih
      cases c with
      | add d => exact document_add_nodup priv d h
      | remove d => exact document_remove_nodup priv d h
  exact key calls _ (by simp [gb_document_manager_init])

/-! ## The contract of the query -/

/-- C1, evaluated on the code: with `scope_indent = 2` and a line made of one
space (or of four spaces) followed by `{`, the query right after the `{` returns
the empty string, where the scope-indent rule asks for three (or six) spaces:
`line_is_space` tests the character under the iterator, the `{` itself. -/
theorem scope_indent_lost_past_column_zero :
    gtk_text_iter_get_char " \x7b".toList 1 = '{'
      ∧ line_is_space " \x7b".toList 1 = .ok false
      ∧ gb_source_auto_indenter_c_query 2 " \x7b".toList 2 = .ok ([], 2)
      ∧ gb_source_auto_indenter_c_query 2 "    \x7b\n".toList 5 = .ok ([], 5) :=
  ⟨rfl, rfl, rfl, rfl⟩

/-- C2, evaluated on the code: in the buffer `foo(`, `    1,`, `    2)` the scan
from the typed `)` finds its `(` at column 3 of the first line, and the query
right after the `)` returns the empty string instead of three characters: no
indentation is built after a successful match. -/
theorem close_paren_builds_no_indent :
    gtk_text_iter_get_char "foo(\n    1,\n    2)".toList 17 = ')'
      ∧ backward_find_matching_char "foo(\n    1,\n    2)".toList 17 ')' = .ok (true, 3)
      ∧ gtk_text_iter_get_line_offset "foo(\n    1,\n    2)".toList 3 = 3
      ∧ gb_source_auto_indenter_c_query 2 "foo(\n    1,\n    2)".toList 18 = .ok ([], 18) :=
  ⟨rfl, rfl, rfl, rfl⟩

/-- C3 as stated fails: in the buffer `foo(1,`, `    2,` the scan from the typed
`,` finds the `(` at column 3, and the query returns four characters, not
three. -/
theorem comma_length_counterexample :
    gtk_text_iter_get_char "foo(1,\n    2,".toList 12 = ','
      ∧ backward_find_matching_char "foo(1,\n    2,".toList 12 ')' = .ok (true, 3)
      ∧ gtk_text_iter_get_line_offset "foo(1,\n    2,".toList 3 = 3
      ∧ ¬ ∃ str, gb_source_auto_indenter_c_query 2 "foo(1,\n    2,".toList 13 = .ok (str, 13)
            ∧ str.length = 3 := by
  refine ⟨rfl, rfl, rfl, ?_⟩
  rintro ⟨str, h, hlen⟩
  have h2 : gb_source_auto_indenter_c_query 2 "foo(1,\n    2,".toList 13
      = .ok ([' ', ' ', ' ', ' '], 13) := rfl
  rw [h2] at h
  injection h with h
  injection h with h _
  subst h
  simp at hlen

/-- C3, amended: when the character before the trigger position is `,` and the
backward scan for `(` finds it at offset `q`, at column `c` of its line, the
query returns `c + 1` characters, one for each character of that line from
column 0 through the `(` itself: that character when it is a tab or a space,
a space otherwise. -/
theorem query_comma_aligns_past_open_paren (scope_indent : Int) (buf : List Char)
    (pos q : Nat) (hpos : 0 < pos)
    (hch : gtk_text_iter_get_char buf (pos - 1) = ',')
    (hfind : backward_find_matching_char buf (pos - 1) ')' = .ok (true, q)) :
    gb_source_auto_indenter_c_query scope_indent buf pos
        = .ok ((List.range (gtk_text_iter_get_line_offset buf q + 1)).map
            (fun i => indent_char (gtk_text_iter_get_char buf
              (gtk_text_buffer_get_iter_at_line buf (gtk_text_iter_get_line buf q) + i))), pos)
      ∧ ((List.range (gtk_text_iter_get_line_offset buf q + 1)).map
            (fun i => indent_char (gtk_text_iter_get_char buf
              (gtk_text_buffer_get_iter_at_line buf (gtk_text_iter_get_line buf q) + i)))).length
          = gtk_text_iter_get_line_offset buf q + 1 := by
  obtain ⟨p, rfl⟩ : ∃ p, pos = p + 1 := ⟨pos - 1, by omega⟩
  simp only [Nat.add_sub_cancel] at hch hfind
  refine ⟨?_, by simp⟩
  have hloop : backward_find_matching_loop buf '(' ')' p 1 = (true, q) := by
    simpa [backward_find_matching_char] using hfind
  obtain ⟨_, hq⟩ := loop_found_char buf '(' ')' p 1 q hloop
  have hqlt : q < buf.length := lt_length_of_get_char buf q '(' hq (by decide)
  have hls := line_start_le buf q
  apply query_comma_found scope_indent buf p q _ hch hfind
  rw [build_indent_eq, line_offset_eq, iter_at_line_eq_line_start]
  have hk : min q (buf.length - 1) - line_start buf q + 1 = q - line_start buf q + 1 := by
    omega
  have hcopied : copied buf q (line_start buf q)
      = (List.range (q - line_start buf q + 1)).map
          (fun i => indent_char (gtk_text_iter_get_char buf (line_start buf q + i))) := by
    simp only [copied, hk, List.range'_eq_map_range, List.map_map]
    rfl
  rw [hcopied]
  simp

/-- The amended C3 on the buffer `foo(1,`, `    2,`, queried after the second
comma: the `(` is at column 3 and the result is four spaces. -/
theorem query_comma_aligns_past_open_paren_witness :
    gb_source_auto_indenter_c_query 2 "foo(1,\n    2,".toList 13
      = .ok ([' ', ' ', ' ', ' '], 13) :=
  (query_comma_aligns_past_open_paren 2 "foo(1,\n    2,".toList 13 3 (by decide) rfl rfl).1

/-- C4, evaluated on the code: in the buffer `x = 1;` the query right after the
`;` returns six spaces, one for each character of the statement, where the
fallback of the `;` rule is no indentation, the empty string: `build_indent` is
called with column limit 0 but copies the line up to the trigger position
whatever the limit. -/
theorem semicolon_fallback_not_empty :
    gtk_text_iter_get_char "x = 1;".toList 5 = ';'
      ∧ gb_source_auto_indenter_c_query 2 "x = 1;".toList 6
          = .ok ([' ', ' ', ' ', ' ', ' ', ' '], 6)
      ∧ gb_source_auto_indenter_c_query 2 "x = 1;".toList 6 ≠ .ok ([], 6) := by
  refine ⟨rfl, rfl, ?_⟩
  intro h
  have h2 : gb_source_auto_indenter_c_query 2 "x = 1;".toList 6
      = .ok ([' ', ' ', ' ', ' ', ' ', ' '], 6) := rfl
  rw [h2] at h
  injection h with h
  injection h with h _
  exact List.noConfusion h

/-- What the `;` branch computes, on every buffer: the query returns what
`build_indent` builds with column limit 0 at the trigger position itself, one
character (a tab or a space kept, anything else turned into a space) for each
character of the trigger position's line from column 0 up to the trigger
position, the character at the trigger position included unless that position
is the end of the buffer. -/
theorem query_semicolon_builds_trigger_line (scope_indent : Int) (buf : List Char)
    (pos : Nat) (hpos : 0 < pos)
    (hch : gtk_text_iter_get_char buf (pos - 1) = ';') :
    build_indent 0 buf pos []
        = .ok ((List.range (gtk_text_iter_get_line_offset buf pos
                  + (if pos < buf.length then 1 else 0))).map
            (fun i => indent_char (gtk_text_iter_get_char buf
              (gtk_text_buffer_get_iter_at_line buf (gtk_text_iter_get_line buf pos) + i))))
      ∧ gb_source_auto_indenter_c_query scope_indent buf pos
        = .ok ((List.range (gtk_text_iter_get_line_offset buf pos
                  + (if pos < buf.length then 1 else 0))).map
            (fun i => indent_char (gtk_text_iter_get_char buf
              (gtk_text_buffer_get_iter_at_line buf (gtk_text_iter_get_line buf pos) + i))), pos)
      ∧ 0 < gtk_text_iter_get_line_offset buf pos + (if pos < buf.length then 1 else 0) := by
  obtain ⟨p, rfl⟩ : ∃ p, pos = p + 1 := ⟨pos - 1, by omega⟩
  simp only [Nat.add_sub_cancel] at hch
  have hplt : p < buf.length := lt_length_of_get_char buf p ';' hch (by decide)
  have hnl : gtk_text_iter_get_char buf p ≠ '\n' := by rw [hch]; decide
  have hls : line_start buf (p + 1) ≤ p := by
    rw [line_start_succ_of_ne buf p hnl]
    exact line_start_le buf p
  have hk : min (p + 1) (buf.length - 1) - line_start buf (p + 1) + 1
      = p + 1 - line_start buf (p + 1) + (if p + 1 < buf.length then 1 else 0) := by
    split <;> omega
  have hbuild : build_indent 0 buf (p + 1) []
      = .ok ((List.range (gtk_text_iter_get_line_offset buf (p + 1)
                  + (if p + 1 < buf.length then 1 else 0))).map
            (fun i => indent_char (gtk_text_iter_get_char buf
              (gtk_text_buffer_get_iter_at_line buf (gtk_text_iter_get_line buf (p + 1)) + i)))) := by
    rw [build_indent_eq, line_offset_eq, iter_at_line_eq_line_start]
    have hcopied : copied buf (p + 1) (line_start buf (p + 1))
        = (List.range (p + 1 - line_start buf (p + 1)
              + (if p + 1 < buf.length then 1 else 0))).map
            (fun i => indent_char (gtk_text_iter_get_char buf (line_start buf (p + 1) + i))) := by
      simp only [copied, hk, List.range'_eq_map_range, List.map_map]
      rfl
    rw [hcopied]
    simp
  refine ⟨hbuild, query_semicolon scope_indent buf p _ hch hbuild, ?_⟩
  rw [line_offset_eq]
  omega

/-- The `;` branch on the buffer `x = 1;`, queried at its end: six spaces. -/
theorem query_semicolon_builds_trigger_line_witness :
    gb_source_auto_indenter_c_query 0 "x = 1;".toList 6
      = .ok ([' ', ' ', ' ', ' ', ' ', ' '], 6) :=
  (query_semicolon_builds_trigger_line 0 "x = 1;".toList 6 (by decide) rfl).2.1

/-- C5, evaluated on the code: the query right after a `]` (here in the buffer
`a[0]`) does not return a string; it stops in the `g_assert_not_reached ()` of
`backward_find_matching_char`, whose `switch` has no case for `]`. -/
theorem query_close_bracket_asserts :
    gtk_text_iter_get_char "a[0]".toList 3 = ']'
      ∧ gb_source_auto_indenter_c_query 2 "a[0]".toList 4 = .error .assert_not_reached :=
  ⟨rfl, rfl⟩

/-- C6, evaluated on the code: `backward_find_matching_char` given `]` after a
balanced `[` stops in `g_assert_not_reached ()` instead of reporting the `[`;
its `switch` pairs `[` with `]` the wrong way round, so that given `[` it
searches backward for a `]`. -/
theorem matching_char_close_bracket_asserts :
    backward_find_matching_char "[]".toList 1 ']' = .error .assert_not_reached
      ∧ backward_find_matching_char "a[i]".toList 3 ']' = .error .assert_not_reached
      ∧ backward_find_matching_char "][".toList 1 '[' = .ok (true, 0) :=
  ⟨rfl, rfl, rfl⟩

/-- C7: when the character before the trigger position is `)` and no earlier
offset `p` has one more `(` than `)` among the characters between `p` and that
`)` (so that the backward scan reaches the buffer start without its counter
reaching 0), the query returns the empty string.  The buffer is one GTK can
hold: its length fits a `gint`. -/
theorem query_unbalanced_paren_empty (scope_indent : Int) (buf : List Char) (pos : Nat)
    (hpos : 0 < pos) (hlen : buf.length < 2147483648)
    (hch : gtk_text_iter_get_char buf (pos - 1) = ')')
    (hno : ∀ p, p < pos - 1 →
      ((buf.take (pos - 1)).drop p).count '(' ≠ ((buf.take (pos - 1)).drop p).count ')' + 1) :
    gb_source_auto_indenter_c_query scope_indent buf pos = .ok ([], pos) := by
  obtain ⟨p, rfl⟩ : ∃ p, pos = p + 1 := ⟨pos - 1, by omega⟩
  simp only [Nat.add_sub_cancel] at hch hno
  have hplt : p < buf.length := lt_length_of_get_char buf p ')' hch (by decide)
  have hloop := loop_not_found buf '(' ')' (by decide) p 1 (by omega) le_rfl (by omega) hno
  apply query_close_not_found scope_indent buf p 0 ')' hch (Or.inl rfl)
  simp [backward_find_matching_char, hloop]

/-- C7 on the buffer `a)`, queried at its end. -/
theorem query_unbalanced_paren_empty_witness :
    gb_source_auto_indenter_c_query 2 "a)".toList 2 = .ok ([], 2) :=
  query_unbalanced_paren_empty 2 "a)".toList 2 (by decide) (by decide) rfl (by decide)

/-- C8: when the character before the trigger position is none of `{`, `)`,
`]`, `}`, `,` and `;`, the query returns the empty string. -/
theorem query_non_trigger_empty (scope_indent : Int) (buf : List Char) (pos : Nat)
    (hpos : 0 < pos)
    (hch : gtk_text_iter_get_char buf (pos - 1) ∉ ['{', ')', ']', '}', ',', ';']) :
    gb_source_auto_indenter_c_query scope_indent buf pos = .ok ([], pos) := by
  obtain ⟨p, rfl⟩ : ∃ p, pos = p + 1 := ⟨pos - 1, by omega⟩
  simp only [Nat.add_sub_cancel, List.mem_cons, List.mem_singleton, not_or,
    List.not_mem_nil, not_false_eq_true, and_true] at hch
  obtain ⟨h1, h2, h3, h4, h5, h6⟩ := hch
  exact query_other scope_indent buf p h1 h2 h3 h4 h5 h6

/-- C8 on the buffer `int x`, queried at its end. -/
theorem query_non_trigger_empty_witness :
    gb_source_auto_indenter_c_query 2 "int x".toList 5 = .ok ([], 5) :=
  query_non_trigger_empty 2 "int x".toList 5 (by decide) (by decide)

/-- C9: at the start of the buffer, where stepping one character backward
fails, the query returns the empty string. -/
theorem query_buffer_start_empty (scope_indent : Int) (buf : List Char) :
    gb_source_auto_indenter_c_query scope_indent buf 0 = .ok ([], 0) :=
  rfl

/-- C10: when the character before the trigger position is `{` and some
character before it on the same line is neither a tab nor a space, the query
returns the empty string. -/
theorem query_brace_after_code_empty (scope_indent : Int) (buf : List Char) (pos : Nat)
    (hpos : 0 < pos)
    (hch : gtk_text_iter_get_char buf (pos - 1) = '{')
    (hcode : ∃ j, gtk_text_buffer_get_iter_at_line buf (gtk_text_iter_get_line buf (pos - 1)) ≤ j
      ∧ j < pos - 1
      ∧ gtk_text_iter_get_char buf j ≠ '\t' ∧ gtk_text_iter_get_char buf j ≠ ' ') :
    gb_source_auto_indenter_c_query scope_indent buf pos = .ok ([], pos) := by
  obtain ⟨p, rfl⟩ : ∃ p, pos = p + 1 := ⟨pos - 1, by omega⟩
  simp only [Nat.add_sub_cancel] at hch hcode
  obtain ⟨j, hj1, hj2, _, _⟩ := hcode
  have hplt : p < buf.length := lt_length_of_get_char buf p '{' hch (by decide)
  apply query_brace_false scope_indent buf p hch
  unfold line_is_space
  apply line_is_space_loop_false buf p hplt (by rw [hch]; decide)
  · omega
  · omega

/-- C10 on the line `  if (x) {`, queried right after the `{`. -/
theorem query_brace_after_code_empty_witness :
    gb_source_auto_indenter_c_query 2 "  if (x) \x7b".toList 10 = .ok ([], 10) :=
  query_brace_after_code_empty 2 "  if (x) \x7b".toList 10 (by decide) rfl
    ⟨2, by decide, by decide, by decide, by decide⟩

/-- C11: when the character before the trigger position is `,` and no earlier
offset `p` has one more `(` than `)` among the characters between `p` and that
`,` (the backward scan finds no unmatched `(`), the query returns the empty
string.  The buffer is one GTK can hold: its length fits a `gint`. -/
theorem query_comma_no_paren_empty (scope_indent : Int) (buf : List Char) (pos : Nat)
    (hpos : 0 < pos) (hlen : buf.length < 2147483648)
    (hch : gtk_text_iter_get_char buf (pos - 1) = ',')
    (hno : ∀ p, p < pos - 1 →
      ((buf.take (pos - 1)).drop p).count '(' ≠ ((buf.take (pos - 1)).drop p).count ')' + 1) :
    gb_source_auto_indenter_c_query scope_indent buf pos = .ok ([], pos) := by
  obtain ⟨p, rfl⟩ : ∃ p, pos = p + 1 := ⟨pos - 1, by omega⟩
  simp only [Nat.add_sub_cancel] at hch hno
  have hplt : p < buf.length := lt_length_of_get_char buf p ',' hch (by decide)
  have hloop := loop_not_found buf '(' ')' (by decide) p 1 (by omega) le_rfl (by omega) hno
  apply query_comma_not_found scope_indent buf p 0 hch
  simp [backward_find_matching_char, hloop]

/-- C11 on the buffer `f(a), b,`, queried at its end: the only `(` is closed
again before the comma. -/
theorem query_comma_no_paren_empty_witness :
    gb_source_auto_indenter_c_query 2 "f(a), b,".toList 8 = .ok ([], 8) :=
  query_comma_no_paren_empty 2 "f(a), b,".toList 8 (by decide) (by decide) rfl (by decide)

/-- C12: whenever the query returns, the caller's iterator is back at the
trigger position; and it does return, at the buffer start and after every
character other than `]` (after a `]` the call stops in the assertion of
`backward_find_matching_char` and does not return at all). -/
theorem query_restores_iterator (scope_indent : Int) (buf : List Char) (pos : Nat) :
    (∀ str it, gb_source_auto_indenter_c_query scope_indent buf pos = .ok (str, it) → it = pos)
      ∧ (¬ (0 < pos ∧ gtk_text_iter_get_char buf (pos - 1) = ']') →
          ∃ str, gb_source_auto_indenter_c_query scope_indent buf pos = .ok (str, pos)) := by
  rcases query_outcome scope_indent buf pos with ⟨_, _, herr⟩ | ⟨_, str, hok, _⟩
  · refine ⟨?_, fun h => absurd ⟨‹0 < pos›, ‹_›⟩ h⟩
    intro str it h
    rw [herr] at h
    exact Except.noConfusion h
  · refine ⟨?_, fun _ => ⟨str, hok⟩⟩
    intro str2 it h
    rw [hok] at h
    injection h with h
    injection h with _ h2
    exact h2.symm

/-- C13: every character of a string returned by the query is a space or a
tab. -/
theorem query_result_alphabet (scope_indent : Int) (buf : List Char) (pos : Nat)
    (str : List Char) (it : Nat)
    (h : gb_source_auto_indenter_c_query scope_indent buf pos = .ok (str, it)) :
    ∀ c ∈ str, c = ' ' ∨ c = '\t' := by
  rcases query_outcome scope_indent buf pos with ⟨_, _, herr⟩ | ⟨_, str2, hok, hstr⟩
  · rw [herr] at h
    exact Except.noConfusion h
  · rw [hok] at h
    injection h with h
    injection h with h1 _
    subst h1
    rcases hstr with rfl | ⟨l, m, hb⟩
    · intro c hc
      exact absurd hc (List.not_mem_nil c)
    · exact build_indent_alphabet l buf m _ hb

/-- C13 on the buffer made of a tab and `f(1,`, queried at its end: the result
is the tab of the line followed by two spaces. -/
theorem query_result_alphabet_witness :
    gb_source_auto_indenter_c_query 2 "\tf(1,".toList 5 = .ok (['\t', ' ', ' '], 5)
      ∧ ∀ c ∈ ['\t', ' ', ' '], c = ' ' ∨ c = '\t' :=
  ⟨rfl, query_result_alphabet 2 "\tf(1,".toList 5 ['\t', ' ', ' '] 5 rfl⟩

/-- C17, evaluated on the code: on the line `  return;` followed by a newline,
the query right after the `;` calls `build_indent` with column limit 0 and the
reference position at offset 9, and `build_indent` produces ten characters,
not a string of length 0: its copy loop never tests the column limit. -/
theorem build_indent_ignores_column_limit :
    gtk_text_iter_get_char "  return;\n".toList 8 = ';'
      ∧ build_indent 0 "  return;\n".toList 9 [] = .ok (List.replicate 10 ' ')
      ∧ (List.replicate 10 ' ').length = 10
      ∧ gb_source_auto_indenter_c_query 2 "  return;\n".toList 9
          = .ok (List.replicate 10 ' ', 9) :=
  ⟨rfl, rfl, rfl, rfl⟩

/-- The length of what `build_indent` produces from the empty string, for every
column limit `L` and every reference position: `max L m`, where `m` is the
number of characters the copy loop appends, one for each offset from the start
of the reference line through the reference position (through the last
character of the buffer when the reference position is its end). -/
theorem build_indent_length (line_offset : Nat) (buf : List Char) (matching_line : Nat) :
    ∃ str, build_indent line_offset buf matching_line [] = .ok str
      ∧ str.length = max line_offset
          (min matching_line (buf.length - 1)
            - gtk_text_buffer_get_iter_at_line buf (gtk_text_iter_get_line buf matching_line) + 1)
      ∧ line_offset ≤ str.length
      ∧ (min matching_line (buf.length - 1)
            - gtk_text_buffer_get_iter_at_line buf (gtk_text_iter_get_line buf matching_line) + 1
              ≤ line_offset → str.length = line_offset) := by
  refine ⟨_, build_indent_eq line_offset buf matching_line [], ?_⟩
  rw [iter_at_line_eq_line_start]
  simp only [List.nil_append, List.length_append, List.length_replicate, copied_length]
  omega

/-- C18: for the closing character `)` or `}` with its opener `o`, when
`backward_find_matching_char` started at offset `s` reports found with the
iterator at `p`, then `p < s`, the character at `p` is `o`, the characters at
the offsets `p`, ..., `s - 1` hold one more `o` than closing characters, and `p`
is the greatest offset below `s` of which that is true.  The buffer is one GTK
can hold: its length fits a `gint`, and `s` is one of its offsets. -/
theorem bracket_match_found (buf : List Char) (s p : Nat) (c o : Char)
    (hs : s ≤ buf.length) (hlen : buf.length < 2147483648)
    (hpair : (c = ')' ∧ o = '(') ∨ (c = '}' ∧ o = '{'))
    (hfind : backward_find_matching_char buf s c = .ok (true, p)) :
    p < s ∧ gtk_text_iter_get_char buf p = o
      ∧ (((buf.take s).drop p).count o : Int) - ((buf.take s).drop p).count c = 1
      ∧ ∀ q, q < s →
          (((buf.take s).drop q).count o : Int) - ((buf.take s).drop q).count c = 1 → q ≤ p := by
  have hloop : backward_find_matching_loop buf o c s 1 = (true, p) := by
    rcases hpair with ⟨rfl, rfl⟩ | ⟨rfl, rfl⟩ <;>
      simpa [backward_find_matching_char] using hfind
  have hne : o ≠ c := by
    rcases hpair with ⟨rfl, rfl⟩ | ⟨rfl, rfl⟩ <;> decide
  rcases loop_spec buf o c hne s 1 hs le_rfl (by omega) with ⟨p2, h1, h2, h3, h4, h5⟩ | ⟨h1, _⟩
  · rw [h1] at hloop
    injection hloop with _ hp
    subst hp
    refine ⟨h2, h3, by omega, ?_⟩
    intro q hq hcount
    by_contra hlt
    exact h5 q (by omega) hq (by omega)
  · rw [h1] at hloop
    injection hloop with hb _
    exact Bool.noConfusion hb

/-- C18 on the buffer `(a(b)c)`, scanned from its last `)`: the match is the
first `(`. -/
theorem bracket_match_found_witness :
    0 < 6 ∧ gtk_text_iter_get_char "(a(b)c)".toList 0 = '('
      ∧ ((("(a(b)c)".toList.take 6).drop 0).count '(' : Int)
          - (("(a(b)c)".toList.take 6).drop 0).count ')' = 1
      ∧ ∀ q, q < 6 →
          ((("(a(b)c)".toList.take 6).drop q).count '(' : Int)
            - (("(a(b)c)".toList.take 6).drop q).count ')' = 1 → q ≤ 0 :=
  bracket_match_found "(a(b)c)".toList 6 0 ')' '(' (by decide) (by decide)
    (Or.inl ⟨rfl, rfl⟩) rfl

/-- C19: for the closing character `)` or `}` with its opener `o` and a start
offset `s`, `backward_find_matching_char` reports not found if and only if no
offset `p < s` is such that the characters at the offsets `p`, ..., `s - 1`
hold one more `o` than closing characters.  The buffer is one GTK can hold: its
length fits a `gint`, and `s` is one of its offsets. -/
theorem bracket_match_not_found_iff (buf : List Char) (s : Nat) (c o : Char)
    (hs : s ≤ buf.length) (hlen : buf.length < 2147483648)
    (hpair : (c = ')' ∧ o = '(') ∨ (c = '}' ∧ o = '{')) :
    (∃ q, backward_find_matching_char buf s c = .ok (false, q))
      ↔ ¬ ∃ p, p < s
          ∧ (((buf.take s).drop p).count o : Int) - ((buf.take s).drop p).count c = 1 := by
  have hchar : backward_find_matching_char buf s c
      = .ok (backward_find_matching_loop buf o c s 1) := by
    rcases hpair with ⟨rfl, rfl⟩ | ⟨rfl, rfl⟩ <;> simp [backward_find_matching_char]
  have hne : o ≠ c := by
    rcases hpair with ⟨rfl, rfl⟩ | ⟨rfl, rfl⟩ <;> decide
  rw [hchar]
  rcases loop_spec buf o c hne s 1 hs le_rfl (by omega) with ⟨p, h1, h2, _, h4, _⟩ | ⟨h1, h2⟩
  · rw [h1]
    constructor
    · rintro ⟨q, hq⟩
      injection hq with hq
      injection hq with hb _
      exact Bool.noConfusion hb
    · intro hno
      exact absurd ⟨p, h2, by omega⟩ hno
  · rw [h1]
    constructor
    · rintro _ ⟨p, hp, hcount⟩
      exact h2 p hp (by omega)
    · intro _
      exact ⟨0, rfl⟩

/-- C19 on the buffer `a)b)`, scanned from its last `)`: nothing balances. -/
theorem bracket_match_not_found_iff_witness :
    (∃ q, backward_find_matching_char "a)b)".toList 3 ')' = .ok (false, q))
      ↔ ¬ ∃ p, p < 3
          ∧ ((("a)b)".toList.take 3).drop p).count '(' : Int)
              - (("a)b)".toList.take 3).drop p).count ')' = 1 :=
  bracket_match_not_found_iff "a)b)".toList 3 ')' '(' (by decide) (by decide)
    (Or.inl ⟨rfl, rfl⟩)

/-- C20, evaluated on the code: `line_is_space` answers FALSE at column 1 of the
line made of a space and `{`, although the only character before that column
is a space, and TRUE at column 1 of the line `x ` (an `x` and a space), although
the character before that column is an `x`: its loop skips column 0 and tests
the character at the position itself. -/
theorem line_is_space_tests_shifted_columns :
    gtk_text_iter_get_char " \x7b".toList 0 = ' '
      ∧ line_is_space " \x7b".toList 1 = .ok false
      ∧ gtk_text_iter_get_char "x ".toList 0 = 'x'
      ∧ line_is_space "x ".toList 1 = .ok true :=
  ⟨rfl, rfl, rfl, rfl⟩

/-- C14: the query, `build_indent`, `line_is_space` and
`backward_find_matching_char` leave the text of the buffer as they found it,
and with it the line of every offset and the start of every line; and the
query does return, at the buffer start and after every character other than
`]`. -/
theorem query_leaves_buffer (scope_indent : Int) (buf : List Char) (pos : Nat) :
    (∀ str buf2 it, gb_source_auto_indenter_c_query_st scope_indent buf pos = .ok (str, buf2, it) →
        buf2 = buf
          ∧ (∀ i, gtk_text_iter_get_line buf2 i = gtk_text_iter_get_line buf i)
          ∧ (∀ l, gtk_text_buffer_get_iter_at_line buf2 l = gtk_text_buffer_get_iter_at_line buf l))
      ∧ (¬ (0 < pos ∧ gtk_text_iter_get_char buf (pos - 1) = ']') →
          ∃ str, gb_source_auto_indenter_c_query_st scope_indent buf pos = .ok (str, buf, pos))
      ∧ (∀ line_offset matching_line str,
          ∃ out, build_indent_st line_offset buf matching_line str = .ok (out, buf))
      ∧ (∃ b, line_is_space_st buf pos = .ok (b, buf))
      ∧ (∀ ch r buf2, backward_find_matching_char_st buf pos ch = .ok (r, buf2) → buf2 = buf) := by
  refine ⟨?_, ?_, ?_, ?_, ?_⟩
  · intro str buf2 it h
    rw [query_st_eq] at h
    cases hq : gb_source_auto_indenter_c_query scope_indent buf pos with
    | error e =>
      rw [hq] at h
      exact Except.noConfusion h
    | ok r =>
      rw [hq] at h
      simp only [Except.map] at h
      injection h with h
      injection h with _ h
      injection h with h _
      subst h
      exact ⟨rfl, fun _ => rfl, fun _ => rfl⟩
  · intro hnb
    obtain ⟨str, hok⟩ := (query_returns_unless_bracket scope_indent buf pos) hnb
    exact ⟨str, by rw [query_st_eq, hok]; rfl⟩
  · intro l m str
    exact ⟨_, by rw [build_indent_st_eq, build_indent_eq]; rfl⟩
  · obtain ⟨b, hb⟩ := line_is_space_total buf pos
    exact ⟨b, by rw [line_is_space_st_eq, hb]; rfl⟩
  · intro ch r buf2 h
    rw [backward_find_matching_char_st_eq] at h
    cases hq : backward_find_matching_char buf pos ch with
    | error e =>
      rw [hq] at h
      exact Except.noConfusion h
    | ok r2 =>
      rw [hq] at h
      simp only [Except.map] at h
      injection h with h
      injection h with _ h
      exact h.symm

/-- C15: when a call of the query returns, a second call on the state the first
one left (the buffer and the iterator as they are then) returns the same
string and leaves the same state. -/
theorem query_probe_twice (scope_indent : Int) (buf : List Char) (pos : Nat)
    (str buf2 : List Char) (it : Nat)
    (h : gb_source_auto_indenter_c_query_st scope_indent buf pos = .ok (str, buf2, it)) :
    gb_source_auto_indenter_c_query_st scope_indent buf2 it = .ok (str, buf2, it) := by
  have h0 := h
  rw [query_st_eq] at h
  cases hq : gb_source_auto_indenter_c_query scope_indent buf pos with
  | error e =>
    rw [hq] at h
    exact Except.noConfusion h
  | ok r =>
    obtain ⟨r1, r2⟩ := r
    rw [hq] at h
    simp only [Except.map] at h
    injection h with h
    injection h with hs h
    injection h with hb hi
    subst hs hb hi
    rcases query_outcome scope_indent buf pos with ⟨_, _, herr⟩ | ⟨_, str2, hok, _⟩
    · rw [herr] at hq
      exact Except.noConfusion hq
    · rw [hok] at hq
      injection hq with hq
      injection hq with _ hpos
      rw [← hpos]
      rw [← hpos] at h0
      exact h0

/-- C15 on the buffer `foo(1,`, `    2,`, queried at its end: the first call
returns four spaces and leaves the buffer and the iterator as they were, and
the second call does the same. -/
theorem query_probe_twice_witness :
    gb_source_auto_indenter_c_query_st 2 "foo(1,\n    2,".toList 13
      = .ok ([' ', ' ', ' ', ' '], "foo(1,\n    2,".toList, 13) :=
  query_probe_twice 2 "foo(1,\n    2,".toList 13 [' ', ' ', ' ', ' ']
    "foo(1,\n    2,".toList 13 rfl

/-- C16, evaluated on the code: on a newly initialised engine, setting the
`scope-indent` property to 5 (or to -3) stores 0 in the field, and reading the
property yields 0.  The property is installed with `g_param_spec_int`, so the
values are of type `G_TYPE_INT`, on which `g_value_get_uint` returns 0 and
`g_value_set_uint` stores nothing. -/
theorem scope_indent_round_trip_lost :
    g_value_get_int (g_value_set_int (g_value_init scope_indent_value_type) 5) = 5
      ∧ g_value_get_uint (g_value_set_int (g_value_init scope_indent_value_type) 5) = 0
      ∧ (gb_source_auto_indenter_c_set_property gb_source_auto_indenter_c_init
            PROP_SCOPE_INDENT
            (g_value_set_int (g_value_init scope_indent_value_type) 5)).scope_indent = 0
      ∧ g_value_get_int
          (gb_source_auto_indenter_c_get_property
            (gb_source_auto_indenter_c_set_property gb_source_auto_indenter_c_init
              PROP_SCOPE_INDENT (g_value_set_int (g_value_init scope_indent_value_type) 5))
            PROP_SCOPE_INDENT (g_value_init scope_indent_value_type)) = 0
      ∧ (gb_source_auto_indenter_c_set_property gb_source_auto_indenter_c_init
            PROP_SCOPE_INDENT
            (g_value_set_int (g_value_init scope_indent_value_type) (-3))).scope_indent = 0
      ∧ g_value_get_int
          (gb_source_auto_indenter_c_get_property
            (gb_source_auto_indenter_c_set_property gb_source_auto_indenter_c_init
              PROP_SCOPE_INDENT (g_value_set_int (g_value_init scope_indent_value_type) (-3)))
            PROP_SCOPE_INDENT (g_value_init scope_indent_value_type)) = 0 := by
  decide

/-- C21: the copy loop of `build_indent` appends one character for each offset
from the first column of the reference line onward, in order: the character
read there when it is a tab or a space, a single space otherwise.  For a
reference position that can be dereferenced these are the characters of the
line from column 0 through the reference position. -/
theorem build_indent_copy_normalises (buf : List Char) (matching_line : Nat)
    (str : List Char) :
    build_indent_copy buf matching_line (buf.length + 1)
        (gtk_text_buffer_get_iter_at_line buf (gtk_text_iter_get_line buf matching_line)) str
      = .ok (str ++
          (List.range (min matching_line (buf.length - 1)
              - gtk_text_buffer_get_iter_at_line buf (gtk_text_iter_get_line buf matching_line)
              + 1)).map
            (fun i =>
              if gtk_text_iter_get_char buf
                    (gtk_text_buffer_get_iter_at_line buf
                      (gtk_text_iter_get_line buf matching_line) + i) = '\t'
                  ∨ gtk_text_iter_get_char buf
                    (gtk_text_buffer_get_iter_at_line buf
                      (gtk_text_iter_get_line buf matching_line) + i) = ' '
              then gtk_text_iter_get_char buf
                    (gtk_text_buffer_get_iter_at_line buf
                      (gtk_text_iter_get_line buf matching_line) + i)
              else ' '))
      ∧ (matching_line < buf.length →
          min matching_line (buf.length - 1)
              - gtk_text_buffer_get_iter_at_line buf (gtk_text_iter_get_line buf matching_line)
              + 1
            = gtk_text_iter_get_line_offset buf matching_line + 1) := by
  constructor
  · rw [build_indent_copy_eq buf matching_line (buf.length + 1) _ str (by omega),
      copied_eq_map_range]
    rfl
  · intro h
    rw [line_offset_eq, iter_at_line_eq_line_start]
    have := line_start_le buf matching_line
    omega

/-- C22: when the string left by the copy loop of `build_indent` is shorter
than the column limit `L`, the final string is that string followed by spaces
only and has length exactly `L`; when it has `L` characters or more, the final
string is that string, with nothing appended. -/
theorem build_indent_pads (line_offset : Nat) (buf : List Char) (matching_line : Nat)
    (str : List Char) :
    ∃ cp, build_indent_copy buf matching_line (buf.length + 1)
            (gtk_text_buffer_get_iter_at_line buf (gtk_text_iter_get_line buf matching_line)) str
          = .ok cp
      ∧ (cp.length < line_offset →
          build_indent line_offset buf matching_line str
              = .ok (cp ++ List.replicate (line_offset - cp.length) ' ')
            ∧ (cp ++ List.replicate (line_offset - cp.length) ' ').length = line_offset)
      ∧ (line_offset ≤ cp.length →
          build_indent line_offset buf matching_line str = .ok cp) := by
  refine ⟨_, build_indent_copy_eq buf matching_line (buf.length + 1) _ str (by omega), ?_, ?_⟩
  · intro h
    rw [iter_at_line_eq_line_start] at h ⊢
    refine ⟨build_indent_eq _ _ _ _, ?_⟩
    simp only [List.length_append, List.length_replicate] at h ⊢
    omega
  · intro h
    rw [iter_at_line_eq_line_start] at h ⊢
    rw [build_indent_eq, Nat.sub_eq_zero_of_le h]
    simp

/-- C23: when the character before the trigger position is `)` or `}`, the
query returns the empty string, whether the backward scan finds the opener or
not. -/
theorem query_close_always_empty (scope_indent : Int) (buf : List Char) (pos : Nat)
    (hpos : 0 < pos)
    (hch : gtk_text_iter_get_char buf (pos - 1) = ')'
      ∨ gtk_text_iter_get_char buf (pos - 1) = '}') :
    gb_source_auto_indenter_c_query scope_indent buf pos = .ok ([], pos) := by
  obtain ⟨p, rfl⟩ : ∃ p, pos = p + 1 := ⟨pos - 1, by omega⟩
  simp only [Nat.add_sub_cancel] at hch
  rcases hch with h | h
  · cases hl : backward_find_matching_loop buf '(' ')' p 1 with
    | mk found q =>
      have hfind : backward_find_matching_char buf p ')' = .ok (found, q) := by
        simp [backward_find_matching_char, hl]
      cases found with
      | false => exact query_close_not_found scope_indent buf p q ')' h (Or.inl rfl) hfind
      | true => exact query_close_found scope_indent buf p q ')' h (Or.inl rfl) hfind
  · cases hl : backward_find_matching_loop buf '{' '}' p 1 with
    | mk found q =>
      have hfind : backward_find_matching_char buf p '}' = .ok (found, q) := by
        simp [backward_find_matching_char, hl]
      cases found with
      | false => exact query_close_not_found scope_indent buf p q '}' h (Or.inr rfl) hfind
      | true => exact query_close_found scope_indent buf p q '}' h (Or.inr rfl) hfind

/-- C23 on the buffer `f(a)`, queried at its end, where the `(` is found. -/
theorem query_close_always_empty_witness :
    backward_find_matching_char "f(a)".toList 3 ')' = .ok (true, 1)
      ∧ gb_source_auto_indenter_c_query 2 "f(a)".toList 4 = .ok ([], 4) :=
  ⟨rfl, query_close_always_empty 2 "f(a)".toList 4 (by decide) (Or.inl rfl)⟩

/-- C24: when the character before the trigger position is `{`, the query
returns a string, and that string is not empty if and only if the `{` is at
column 0 of its line; for a `{` at any later column `line_is_space` answers
FALSE, whatever precedes it. -/
theorem query_brace_nonempty_iff_column_zero (scope_indent : Int) (buf : List Char)
    (pos : Nat) (hpos : 0 < pos)
    (hch : gtk_text_iter_get_char buf (pos - 1) = '{') :
    ∃ str, gb_source_auto_indenter_c_query scope_indent buf pos = .ok (str, pos)
      ∧ (str ≠ [] ↔ gtk_text_iter_get_line_offset buf (pos - 1) = 0)
      ∧ (0 < gtk_text_iter_get_line_offset buf (pos - 1) →
          line_is_space buf (pos - 1) = .ok false) := by
  obtain ⟨p, rfl⟩ : ∃ p, pos = p + 1 := ⟨pos - 1, by omega⟩
  simp only [Nat.add_sub_cancel] at hch ⊢
  have hplt : p < buf.length := lt_length_of_get_char buf p '{' hch (by decide)
  have hls := line_start_le buf p
  have hfalse : 0 < gtk_text_iter_get_line_offset buf p → line_is_space buf p = .ok false := by
    intro hcol
    rw [line_offset_eq] at hcol
    unfold line_is_space
    rw [iter_at_line_eq_line_start]
    exact line_is_space_loop_false buf p hplt (by rw [hch]; decide) _ _ (by omega) (by omega)
  rcases Nat.eq_zero_or_pos (gtk_text_iter_get_line_offset buf p) with hcol | hcol
  · have hstart : line_start buf p = p := by
      rw [line_offset_eq] at hcol
      omega
    refine ⟨_, query_brace_true scope_indent buf p _ hch
      (line_is_space_at_line_start buf p hstart) (build_indent_eq _ _ _ _), ?_, hfalse⟩
    constructor
    · intro _; exact hcol
    · intro _ hnil
      have hlen := congrArg List.length hnil
      simp only [List.nil_append, List.length_append, copied_length, List.length_replicate,
        List.length_nil] at hlen
      omega
  · refine ⟨[], query_brace_false scope_indent buf p hch (hfalse hcol), ?_, hfalse⟩
    constructor
    · intro h; exact absurd rfl h
    · intro h; omega

/-- C24 on the two-line buffer `x` / `{`, queried right after the `{`, which is
at column 0: the result is two spaces. -/
theorem query_brace_nonempty_iff_column_zero_witness :
    ∃ str, gb_source_auto_indenter_c_query 2 "x\n\x7b".toList 3 = .ok (str, 3)
      ∧ (str ≠ [] ↔ gtk_text_iter_get_line_offset "x\n\x7b".toList (3 - 1) = 0)
      ∧ (0 < gtk_text_iter_get_line_offset "x\n\x7b".toList (3 - 1) →
          line_is_space "x\n\x7b".toList (3 - 1) = .ok false) :=
  query_brace_nonempty_iff_column_zero 2 "x\n\x7b".toList 3 (by decide) rfl

/-- C25: for a reference position that is not the buffer end, at column `c` of
its line, and every column limit `L`, `build_indent` applied to the empty string
yields exactly `max (c + 1) L` characters, and so never the empty string. -/
theorem build_indent_exact_length (line_offset : Nat) (buf : List Char) (matching_line : Nat)
    (href : matching_line < buf.length) :
    ∃ str, build_indent line_offset buf matching_line [] = .ok str
      ∧ str.length = max (gtk_text_iter_get_line_offset buf matching_line + 1) line_offset
      ∧ str ≠ [] := by
  refine ⟨_, build_indent_eq line_offset buf matching_line [], ?_, ?_⟩
  · rw [line_offset_eq]
    have := line_start_le buf matching_line
    simp only [List.nil_append, List.length_append, List.length_replicate, copied_length]
    omega
  · intro hnil
    have hlen := congrArg List.length hnil
    simp only [List.nil_append, List.length_append, copied_length, List.length_replicate,
      List.length_nil] at hlen
    omega

/-- C25 on the buffer `foo(`, with the reference position on the `(` at column
3 and column limit 0: four spaces. -/
theorem build_indent_exact_length_witness :
    ∃ str, build_indent 0 "foo(".toList 3 [] = .ok str
      ∧ str.length = max (gtk_text_iter_get_line_offset "foo(".toList 3 + 1) 0
      ∧ str ≠ [] :=
  build_indent_exact_length 0 "foo(".toList 3 (by decide)

/-- C26: for a `{` at column 0 and a `scope_indent` of `s` with `-32 ≤ s < 0`,
the column asked of `build_indent` is `offset + scope_indent` in unsigned 32-bit
arithmetic, that is `2 ^ 32 + s`, and the string the query returns has
`2 ^ 32 + s` characters. -/
theorem query_negative_scope_indent_wraps (scope_indent : Int) (buf : List Char) (pos : Nat)
    (hpos : 0 < pos)
    (hch : gtk_text_iter_get_char buf (pos - 1) = '{')
    (hcol : gtk_text_iter_get_line_offset buf (pos - 1) = 0)
    (hlo : -32 ≤ scope_indent) (hhi : scope_indent < 0) :
    (guint_add_gint (gtk_text_iter_get_line_offset buf (pos - 1)) scope_indent : Int)
        = 4294967296 + scope_indent
      ∧ ∃ str, gb_source_auto_indenter_c_query scope_indent buf pos = .ok (str, pos)
          ∧ (str.length : Int) = 4294967296 + scope_indent := by
  obtain ⟨p, rfl⟩ : ∃ p, pos = p + 1 := ⟨pos - 1, by omega⟩
  simp only [Nat.add_sub_cancel] at hch hcol ⊢
  have hplt : p < buf.length := lt_length_of_get_char buf p '{' hch (by decide)
  have hls := line_start_le buf p
  have hstart : line_start buf p = p := by
    rw [line_offset_eq] at hcol
    omega
  have hadd : (guint_add_gint (gtk_text_iter_get_line_offset buf p) scope_indent : Int)
      = 4294967296 + scope_indent := by
    rw [hcol]
    simp only [guint_add_gint]
    omega
  refine ⟨hadd, _, query_brace_true scope_indent buf p _ hch
    (line_is_space_at_line_start buf p hstart) (build_indent_eq _ _ _ _), ?_⟩
  simp only [List.nil_append, List.length_append, copied_length, List.length_replicate, hstart]
  omega

/-- C26 on the one-character buffer `{` with `scope_indent = -1`: the result has
`2 ^ 32 - 1` characters. -/
theorem query_negative_scope_indent_wraps_witness :
    (guint_add_gint (gtk_text_iter_get_line_offset "\x7b".toList (1 - 1)) (-1) : Int)
        = 4294967296 + (-1)
      ∧ ∃ str, gb_source_auto_indenter_c_query (-1) "\x7b".toList 1 = .ok (str, 1)
          ∧ (str.length : Int) = 4294967296 + (-1) :=
  query_negative_scope_indent_wraps (-1) "\x7b".toList 1 (by decide) rfl rfl
    (by decide) (by decide)

/-- C27, evaluated on the code: after the items 1, 2, 3 are appended and one
step backward is taken, the list has depth 3 and `current = 1`; appending 4
then calls `g_ptr_array_remove_range (items, 2, 2)`, a range past the end that
is rejected, and leaves the items 1, 2, 3, 4 with depth 4, where discarding the
forward history leaves 1, 2, 4 with depth 3. -/
theorem append_keeps_forward_history :
    navigation_run [.append 1, .append 2, .append 3, .go_backward]
        = ({ items := [1, 2, 3], current := 1 } : GbNavigationListPrivate Nat)
      ∧ g_ptr_array_remove_range [1, 2, 3] 2 2 = [1, 2, 3]
      ∧ gb_navigation_list_append ({ items := [1, 2, 3], current := 1 }) 4
        = ({ items := [1, 2, 3, 4], current := 3 } : GbNavigationListPrivate Nat)
      ∧ gb_navigation_list_get_depth
          (gb_navigation_list_append
            ({ items := [1, 2, 3], current := 1 } : GbNavigationListPrivate Nat) 4) = 4 := by
  decide

/-- C28: after any sequence of `gb_navigation_list_append`,
`gb_navigation_list_go_backward` and `gb_navigation_list_go_forward` calls on
a newly initialised navigation list, its depth is at most
`NAVIGATION_MAX_ITEMS`. -/
theorem navigation_depth_bounded {α : Type} (calls : List (NavigationCall α)) :
    gb_navigation_list_get_depth (navigation_run calls) ≤ NAVIGATION_MAX_ITEMS :=
  (navigation_invariant_run calls).1

/-- C29: after any sequence of calls on a newly initialised navigation list,
either the list is empty and `current = -1`, or `0 ≤ current < depth`; and
`gb_navigation_list_get_current_item` returns `NULL` exactly when the list is
empty, and the item at index `current` otherwise. -/
theorem navigation_cursor_valid {α : Type} (calls : List (NavigationCall α)) :
    (((navigation_run calls).items = [] ∧ (navigation_run calls).current = -1)
        ∨ (0 ≤ (navigation_run calls).current
            ∧ (navigation_run calls).current
                < (gb_navigation_list_get_depth (navigation_run calls) : Int)))
      ∧ (gb_navigation_list_get_current_item (navigation_run calls) = none
          ↔ (navigation_run calls).items = [])
      ∧ ((navigation_run calls).items ≠ [] →
          ∃ h : (navigation_run calls).current.toNat < (navigation_run calls).items.length,
            gb_navigation_list_get_current_item (navigation_run calls)
              = some ((navigation_run calls).items.get ⟨(navigation_run calls).current.toNat, h⟩)) := by
  obtain ⟨hlen, hcur⟩ := navigation_invariant_run calls
  generalize navigation_run calls = priv at hlen hcur ⊢
  simp only [NAVIGATION_MAX_ITEMS] at hlen
  refine ⟨hcur, ?_, ?_⟩
  · rcases hcur with ⟨h1, h2⟩ | ⟨h1, h2⟩
    · simp [gb_navigation_list_get_current_item, h1]
    · have hg : guint_of_gint priv.current = priv.current.toNat := by
        simp only [guint_of_gint]
        omega
      have hlt : priv.current.toNat < priv.items.length := by omega
      have hne : priv.items ≠ [] := by
        intro h
        rw [h] at hlt
        simp at hlt
      simp only [gb_navigation_list_get_current_item, hg, if_pos hlt,
        List.getElem?_eq_getElem hlt]
      simp [hne]
  · intro hne
    rcases hcur with ⟨h1, _⟩ | ⟨h1, h2⟩
    · exact absurd h1 hne
    · have hg : guint_of_gint priv.current = priv.current.toNat := by
        simp only [guint_of_gint]
        omega
      have hlt : priv.current.toNat < priv.items.length := by omega
      refine ⟨hlt, ?_⟩
      simp only [gb_navigation_list_get_current_item, hg, if_pos hlt,
        List.getElem?_eq_getElem hlt]
      rfl

/-- C30: after any sequence of `gb_document_manager_add` and
`gb_document_manager_remove` calls on a newly initialised document manager, no
document is twice in the array; adding a document that is in the array leaves
the array and the count as they are; removing a document that is in the array
lowers the count by exactly one; removing a document that is not in the array
leaves the array as it is. -/
theorem document_registry_no_duplicates {α : Type} [DecidableEq α] :
    (∀ calls : List (DocumentCall α), (document_run calls).documents.Nodup)
      ∧ (∀ (priv : GbDocumentManagerPrivate α) (document : α),
          document ∈ priv.documents →
            (gb_document_manager_add priv document).documents = priv.documents
              ∧ gb_document_manager_get_count (gb_document_manager_add priv document)
                  = gb_document_manager_get_count priv)
      ∧ (∀ (priv : GbDocumentManagerPrivate α) (document : α),
          document ∈ priv.documents →
            gb_document_manager_get_count (gb_document_manager_remove priv document) + 1
              = gb_document_manager_get_count priv)
      ∧ (∀ (priv : GbDocumentManagerPrivate α) (document : α),
          document ∉ priv.documents →
            (gb_document_manager_remove priv document).documents = priv.documents) := by
  refine ⟨document_run_nodup, ?_, ?_, ?_⟩
  · intro priv document hmem
    unfold gb_document_manager_add
    cases hf : gb_document_manager_find priv.documents document priv.documents.length 0 with
    | some j => exact ⟨rfl, rfl⟩
    | none => exact absurd hmem ((find_none_iff_not_mem _ _).mp hf)
  · intro priv document hmem
    unfold gb_document_manager_remove gb_document_manager_get_count
    cases hf : gb_document_manager_find priv.documents document priv.documents.length 0 with
    | some j =>
      exact remove_index_fast_length _ _ (find_some _ _ _ _ _ hf).1
    | none => exact absurd hmem ((find_none_iff_not_mem _ _).mp hf)
  · intro priv document hnot
    unfold gb_document_manager_remove
    rw [(find_none_iff_not_mem _ _).mpr hnot]

end GnomeBuilder
